import Mathlib

/-!
Verification of the ChronoSync timetable parsing and calendar-sync core.

This file is a shallow embedding, in Lean, of the logic of the repository's
three non-UI services:

* the LLM parser service (`src/services/llm-parser.ts`):
  `parseJSONResponse`, `parseEnhancementResponse`, `enhanceEvents`,
  `validateEventType`, `calculateDuration`, `getNextWeekday`;
* the local file parser service (`LocalFileParser`): `mapRowToEvent`,
  `convertRowsToEvents`, `findValueByKeys`, `cleanTitle`, `normalizeTime`,
  `convert12to24`, `addMinutes`, `normalizeDate`, `getNextWeekday`,
  `normalizeEventType`, `calculateDuration`, `parseLocation`;
* the Google Calendar service (`GoogleCalendarService`):
  `convertToCalendarEvent`, `parseTimeRange`, `parseTime`,
  `buildEventDescription`, `chunkArray`, `syncEvents`.

Modeling conventions, used consistently below:

* JavaScript strings are Lean `String`s; the JS string methods the source
  uses (`split`, `includes`, `trim`, `toLowerCase`, `padStart`, template
  literals, `replace` with the specific regexes appearing in the source)
  are re-implemented on `List Char` in this file.
* Code that can throw is embedded in `Except String`; a `try/catch` in the
  source becomes a `match` on the `Except` value.  A function that the
  source guarantees never to throw is embedded as a total function.
* External capabilities are inputs: the outcome of `JSON.parse` on the
  model reply is an `Option JSVal` argument (`none` = syntax error), the
  outcome of a provider HTTP call is an `LLMOutcome` argument, and the
  outcome of one `createEvent` network call is given by an oracle function
  argument.  `Date.now()` and "today" are numeric parameters.
* JavaScript `Date` objects are modeled by the civil-field record `JSDate`
  (with an explicit invalid flag for NaN propagation); "today" in the
  weekday logic is an epoch-day counter.  The configured calendar time
  zone in the source is `'UTC'`, and the model works in that single zone.
-/

/-! SECTION 1: JavaScript string primitives. -/

/-- Decimal digit characters, as produced by JavaScript number printing. -/
def decChar : Nat → Char
  | 0 => '0'
  | 1 => '1'
  | 2 => '2'
  | 3 => '3'
  | 4 => '4'
  | 5 => '5'
  | 6 => '6'
  | 7 => '7'
  | 8 => '8'
  | 9 => '9'
  | _ => '?'

/-- Numeric value of a digit character (JS `charCodeAt` arithmetic). -/
def digitVal (c : Char) : Nat := c.toNat - 48

/-- Whitespace recognised by the JS `\s` class / `trim` (ASCII subset; the
source only ever feeds it ASCII text). -/
def isWsp (c : Char) : Bool := c = ' ' || c = '\t' || c = '\n' || c = '\r'

/-- Digit-extraction worker for `natRepr` (structural on the fuel, which
the entry point sets high enough that the base case is unreachable). -/
def natReprAux : Nat → Nat → List Char → List Char
  | 0, _, acc => acc
  | fuel + 1, n, acc =>
    if n < 10 then decChar n :: acc
    else natReprAux fuel (n / 10) (decChar (n % 10) :: acc)

/-- Decimal rendering of a natural number, as JS template literals print
integers (`${n}`). -/
def natRepr (n : Nat) : List Char := natReprAux (n + 1) n []

/-- JS `String.prototype.padStart(2, '0')`. -/
def padStart2 (l : List Char) : List Char :=
  if 2 ≤ l.length then l else if l.length = 1 then '0' :: l else ['0', '0']

/-- `n.toString().padStart(2, '0')` for a natural number. -/
def pad2 (n : Nat) : List Char := padStart2 (natRepr n)

/-- Two-digit field of a JS `toISOString` output (faithful for values
below 100, the only values any theorem below depends on). -/
def isoPad2 (n : Nat) : List Char := [decChar (n / 10), decChar (n % 10)]

/-- Four-digit year field of a JS `toISOString` output (faithful for
years 0–9999). -/
def isoPad4 (n : Nat) : List Char :=
  [decChar (n / 1000), decChar (n / 100 % 10), decChar (n / 10 % 10), decChar (n % 10)]

/-- JS `String.prototype.trim`, on the left. -/
def trimL (l : List Char) : List Char := l.dropWhile isWsp

/-- JS `String.prototype.trim`, on the right. -/
def trimR (l : List Char) : List Char := (l.reverse.dropWhile isWsp).reverse

/-- JS `String.prototype.trim`. -/
def trimC (l : List Char) : List Char := trimR (trimL l)

/-- String wrapper for `trimC`. -/
def jsTrim (s : String) : String := ⟨trimC s.data⟩

/-- Value of a list of decimal digit characters. -/
def digitsVal (l : List Char) : Nat := l.foldl (fun a c => a * 10 + digitVal c) 0

/-- Every character is a decimal digit. -/
def allDigits (l : List Char) : Bool := l.all Char.isDigit

/-- JS `Number(string)` restricted to the integer forms the parsing
pipeline feeds it: optional surrounding whitespace, optional sign, decimal
digits; the empty string converts to `0`.  `none` models `NaN`.  (JS also
accepts floats, exponents and hex; no theorem below quantifies over inputs
where that difference is visible — see the alphabet/length hypotheses on
the time-parsing theorems.) -/
def toNumber (l : List Char) : Option Int :=
  match trimC l with
  | [] => some 0
  | c :: rest =>
    if c = '-' then
      if !rest.isEmpty && allDigits rest then some (-(digitsVal rest : Int)) else none
    else if c = '+' then
      if !rest.isEmpty && allDigits rest then some ((digitsVal rest : Int)) else none
    else if allDigits (c :: rest) then some ((digitsVal (c :: rest) : Int))
    else none

/-- Does `l` start with `p` (JS `startsWith`, used to locate separator
occurrences)? -/
def startsW : List Char → List Char → Bool
  | [], _ => true
  | _ :: _, [] => false
  | a :: as, b :: bs => a = b && startsW as bs

/-- JS `String.prototype.includes`: `sub` occurs inside `hay`. -/
def containsL (hay sub : List Char) : Bool :=
  match hay with
  | [] => sub.isEmpty
  | _ :: t => startsW sub hay || containsL t sub

/-- String wrapper for `containsL`. -/
def jsIncludes (s sub : String) : Bool := containsL s.data sub.data

/-- Worker for JS `split` with a non-empty separator `s0 :: sr`:
accumulates the current piece (reversed) in `acc`.  Structural on the
fuel; every step consumes at least one input character, so fuel equal to
the input length (as the entry point passes) never runs out before the
input does. -/
def splitGo (s0 : Char) (sr : List Char) : Nat → List Char → List Char →
    List (List Char)
  | _, acc, [] => [acc.reverse]
  | 0, acc, l => [acc.reverse ++ l]
  | fuel + 1, acc, c :: cs =>
    if startsW (s0 :: sr) (c :: cs) then
      acc.reverse :: splitGo s0 sr fuel [] (cs.drop sr.length)
    else
      splitGo s0 sr fuel (c :: acc) cs

/-- JS `String.prototype.split` with a string separator (the source only
splits on the non-empty separators `" - "`, `":"` and `","`; the
empty-separator branch is never reached). -/
def jsSplit (sep s : String) : List String :=
  match sep.data with
  | [] => [s]
  | s0 :: sr => (splitGo s0 sr s.data.length [] s.data).map (fun l => ⟨l⟩)

/-- Fuel-structural worker for `squashWs` (fuel = input length, each step
consumes at least one character). -/
def squashWsGo (r : List Char) : Nat → List Char → List Char
  | _, [] => []
  | 0, l => l
  | fuel + 1, c :: cs =>
    if isWsp c then r ++ squashWsGo r fuel (cs.dropWhile isWsp)
    else c :: squashWsGo r fuel cs

/-- JS `replace(/\s+/g, r)`: every maximal whitespace run becomes `r`. -/
def squashWs (r : List Char) (l : List Char) : List Char :=
  squashWsGo r l.length l

/-- ASCII `toLowerCase`, as applied by the source to header names, type
tags and weekday names. -/
def toLowerC (c : Char) : Char :=
  if 'A' ≤ c ∧ c ≤ 'Z' then Char.ofNat (c.toNat + 32) else c

/-- String wrapper for `toLowerC`. -/
def jsToLower (s : String) : String := ⟨s.data.map toLowerC⟩

/-! SECTION 2: JavaScript runtime values (for JSON data from the model). -/

/-- A JavaScript value as produced by `JSON.parse`, extended with
`undefined` (the result of reading an absent property). -/
inductive JSVal where
  | undefV
  | null
  | bool (b : Bool)
  | num (n : Int)
  | str (s : String)
  | arr (elems : List JSVal)
  | obj (fields : List (String × JSVal))

/-- JS truthiness.  (JSON numbers in the replies the source handles are
integers, so `num` carries an `Int`; `NaN` never reaches a truthiness
test in the embedded fragment.) -/
def truthy : JSVal → Bool
  | .undefV => false
  | .null => false
  | .bool b => b
  | .num n => n != 0
  | .str s => !s.isEmpty
  | .arr _ => true
  | .obj _ => true

/-- JS `a || b`. -/
def jsOrV (a b : JSVal) : JSVal := if truthy a then a else b

/-- First binding of `k` in an object's field list (JS objects built by
`JSON.parse` keep the last duplicate, but the parser output the source
consumes has unique keys; lookup of the first binding is used). -/
def lookupField (fs : List (String × JSVal)) (k : String) : Option JSVal :=
  match fs with
  | [] => none
  | (k', v) :: rest => if k' = k then some v else lookupField rest k

/-- JS property access `v[k]`: throws on `null`/`undefined`, yields
`undefined` on primitives and on objects lacking the key. -/
def getField : JSVal → String → Except String JSVal
  | .undefV, _ => .error "TypeError: Cannot read properties of undefined"
  | .null, _ => .error "TypeError: Cannot read properties of null"
  | .obj fs, k => .ok ((lookupField fs k).getD .undefV)
  | _, _ => .ok .undefV

/-! SECTION 3: JavaScript dates.

`JSDate` keeps the civil fields of a `Date` plus the invalid flag (a JS
`Invalid Date`, i.e. an internal `NaN` timestamp).  Fields are stored
unnormalized: `setHours` with in-range arguments never changes the date in
JS either, and every theorem below that inspects a printed date constrains
hours and minutes to their in-range forms; out-of-range numeric arguments
only ever flow into validity checks here.  The configured calendar time
zone in the source is `'UTC'`, so local and UTC fields coincide. -/

structure JSDate where
  valid : Bool
  year : Nat
  month : Nat
  day : Nat
  hh : Int
  mi : Int
deriving DecidableEq

/-- The JS `Invalid Date`. -/
def invalidDate : JSDate := ⟨false, 0, 1, 1, 0, 0⟩

/-- Gregorian leap-year test. -/
def isLeap (y : Nat) : Bool := (y % 4 = 0 && y % 100 != 0) || y % 400 = 0

/-- Days in a civil month. -/
def daysInMonth (y : Nat) (m : Nat) : Nat :=
  if m = 1 || m = 3 || m = 5 || m = 7 || m = 8 || m = 10 || m = 12 then 31
  else if m = 4 || m = 6 || m = 9 || m = 11 then 30
  else if isLeap y then 29 else 28

/-- JS `new Date(string)` for the `YYYY-MM-DD` date-only strings this
pipeline produces and consumes (parsed as UTC midnight, validity checked
against the civil calendar as the ECMAScript ISO parser does).  Other,
engine-specific input formats `new Date` may accept are not modeled; no
claim below depends on them. -/
def jsNewDate (s : String) : JSDate :=
  match s.data with
  | [y1, y2, y3, y4, '-', m1, m2, '-', d1, d2] =>
    if y1.isDigit && y2.isDigit && y3.isDigit && y4.isDigit &&
        m1.isDigit && m2.isDigit && d1.isDigit && d2.isDigit then
      let y := digitsVal [y1, y2, y3, y4]
      let mo := digitsVal [m1, m2]
      let d := digitsVal [d1, d2]
      if 1 ≤ mo && mo ≤ 12 && 1 ≤ d && d ≤ daysInMonth y mo then
        ⟨true, y, mo, d, 0, 0⟩
      else invalidDate
    else invalidDate
  | _ => invalidDate

/-- JS `date.setHours(h, m, 0, 0)` where either argument may be `NaN`
(`none`): a `NaN` argument, like a `NaN` base date, yields an invalid
date. -/
def setHoursJS (d : JSDate) (h mi : Option Int) : JSDate :=
  match h, mi with
  | some hv, some mv => if d.valid then { d with hh := hv, mi := mv } else d
  | _, _ => { d with valid := false }

/-- JS `date.toISOString()`: throws a `RangeError` on an invalid date. -/
def toISOStringE (d : JSDate) : Except String String :=
  if d.valid then
    .ok ⟨isoPad4 d.year ++ ['-'] ++ isoPad2 d.month ++ ['-'] ++ isoPad2 d.day ++
          ['T'] ++ isoPad2 d.hh.toNat ++ [':'] ++ isoPad2 d.mi.toNat ++
          (":00.000Z".data)⟩
  else .error "RangeError: Invalid time value"

/-- JS `date.getDay()` for a date that is `epochDay` days after
1970-01-01 (a Thursday, so weekday 4; 0 = Sunday as in JS). -/
def jsGetDay (epochDay : Nat) : Nat := (epochDay + 4) % 7

/-- Civil date of an epoch day (days since 1970-01-01), by the standard
era-decomposition algorithm; used to print dates the source builds by
day arithmetic on `Date` objects. -/
def civilFromDays (z : Nat) : Nat × Nat × Nat :=
  let z' := z + 719468
  let era := z' / 146097
  let doe := z' % 146097
  let yoe := (doe - doe / 1460 + doe / 36524 - doe / 146096) / 365
  let y := yoe + era * 400
  let doy := doe - (365 * yoe + yoe / 4 - yoe / 100)
  let mp := (5 * doy + 2) / 153
  let d := doy - (153 * mp + 2) / 5 + 1
  let m := if mp < 10 then mp + 3 else mp - 9
  (if m ≤ 2 then y + 1 else y, m, d)

/-- The `YYYY-MM-DD` part of `toISOString` for the date `epochDay` days
after 1970-01-01 (what `targetDate.toISOString().split('T')[0]`
computes in both `getNextWeekday` implementations). -/
def renderDateOfDay (epochDay : Nat) : String :=
  match civilFromDays epochDay with
  | (y, m, d) => ⟨isoPad4 y ++ ['-'] ++ isoPad2 m ++ ['-'] ++ isoPad2 d⟩

/-- `LocalFileParser.getNextWeekday`: next occurrence of `dayOfWeek`
strictly after today (the `|| 7` sends a same-day match a week ahead).
`today` is the current epoch day. -/
def getNextWeekdayLocal (today : Nat) (dayOfWeek : Nat) : String :=
  let du := (dayOfWeek + 7 - jsGetDay today) % 7
  let du := if du = 0 then 7 else du
  renderDateOfDay (today + du)

/-- `LLMTimetableParser.getNextWeekday`: same formula but without the
`|| 7` correction, so a same-day match resolves to today. -/
def getNextWeekdayLLM (today : Nat) (dayOfWeek : Nat) : String :=
  renderDateOfDay (today + (dayOfWeek + 7 - jsGetDay today) % 7)

/-! SECTION 4: data model (`src/types/calendar.ts`).

The TS field `type` is a Lean keyword; it is embedded as `etype`. -/

/-- `ParsedTimetableEvent`. -/
structure ParsedTimetableEvent where
  id : String
  title : String
  time : String
  date : String
  location : String
  etype : String
  duration : String
  instructor : Option String
  courseCode : Option String
  room : Option String
  building : Option String
deriving DecidableEq

/-- One reminder override of a `CalendarEvent`. -/
structure Reminder where
  method : String
  minutes : Nat
deriving DecidableEq

/-- The `reminders` field of a `CalendarEvent`. -/
structure Reminders where
  useDefault : Bool
  overrides : List Reminder
deriving DecidableEq

/-- `CalendarEvent` as built by `convertToCalendarEvent` (the optional
`attendees`/`recurrence`/`visibility` fields are never set by the mapper
and are omitted). -/
structure CalendarEvent where
  id : String
  title : String
  description : String
  startTime : String
  endTime : String
  location : String
  colorId : String
  reminders : Reminders
deriving DecidableEq

/-- One entry of `SyncResult.errors`. -/
structure SyncErrorEntry where
  eventId : String
  error : String
deriving DecidableEq

/-- `SyncResult`. -/
structure SyncResult where
  success : Bool
  eventsCreated : Nat
  eventsUpdated : Nat
  eventsFailed : Nat
  errors : List SyncErrorEntry
  calendarId : String
deriving DecidableEq

/-- `Except`-valued `map` (a JS `array.map` whose callback may throw). -/
def mapEx (f : α → Except String β) : List α → Except String (List β)
  | [] => .ok []
  | a :: as => do
    let b ← f a
    let bs ← mapEx f as
    pure (b :: bs)

/-- `Except`-valued `map` with the element index (JS `map((x, i) => ...)`
with a callback that may throw). -/
def mapIdxExGo (f : Nat → α → Except String β) (i : Nat) :
    List α → Except String (List β)
  | [] => .ok []
  | a :: as => do
    let b ← f i a
    let bs ← mapIdxExGo f (i + 1) as
    pure (b :: bs)

/-- Entry point of `mapIdxExGo` at index 0. -/
def mapIdxEx (f : Nat → α → Except String β) (l : List α) :
    Except String (List β) := mapIdxExGo f 0 l

/-! SECTION 5: the Google Calendar service (`GoogleCalendarService`). -/

/-- `DEFAULT_CALENDAR_SETTINGS.eventColors`. -/
def eventColors : List (String × String) :=
  [("lecture", "1"), ("lab", "2"), ("tutorial", "3"),
   ("exam", "4"), ("meeting", "5"), ("break", "6")]

/-- `eventColors[type] || '1'`. -/
def colorFor (t : String) : String :=
  match lookupColor eventColors t with
  | some c => c
  | none => "1"
where
  lookupColor : List (String × String) → String → Option String
    | [], _ => none
    | (k, v) :: rest, key => if k = key then some v else lookupColor rest key

/-- `DEFAULT_CALENDAR_SETTINGS.reminderDefaults`. -/
def reminderDefaults : List Reminder := [⟨"email", 24 * 60⟩, ⟨"popup", 10⟩]

/-- JS `toUpperCase` on one ASCII character. -/
def toUpperC (c : Char) : Char :=
  if 'a' ≤ c ∧ c ≤ 'z' then Char.ofNat (c.toNat - 32) else c

/-- `type.charAt(0).toUpperCase() + type.slice(1)`. -/
def capFirst (s : String) : String :=
  match s.data with
  | [] => ""
  | c :: cs => ⟨toUpperC c :: cs⟩

/-- `GoogleCalendarService.buildEventDescription`. -/
def buildEventDescription (e : ParsedTimetableEvent) : String :=
  let parts := ["Course: " ++ e.title, "Type: " ++ capFirst e.etype,
                "Duration: " ++ e.duration]
  let parts := parts ++ (match e.courseCode with
    | some c => ["Course Code: " ++ c]
    | none => [])
  let parts := parts ++ (match e.instructor with
    | some c => ["Instructor: " ++ c]
    | none => [])
  let parts := parts ++ (match e.room with
    | some c => ["Room: " ++ c]
    | none => [])
  let parts := parts ++ (match e.building with
    | some c => ["Building: " ++ c]
    | none => [])
  let parts := parts ++ ["", "Created by ChronoSync"]
  String.intercalate "\n" parts

/-- `GoogleCalendarService.parseTime` (also the body of the LLM parser's
`parseTimeString`, which is the same code): split on `:`, convert with
`Number`, `setHours` on a copy of the base date.  The argument is `none`
when the source would call it with `undefined` (a missing range part), in
which case `.split` throws. -/
def parseTimeStrJS (timeStr : Option String) (baseDate : JSDate) :
    Except String JSDate :=
  match timeStr with
  | none => .error "TypeError: Cannot read properties of undefined"
  | some s =>
    let parts := jsSplit ":" s
    let hours := (parts.get? 0).bind (fun p => toNumber p.data)
    let minutes := (parts.get? 1).bind (fun p => toNumber p.data)
    .ok (setHoursJS baseDate hours minutes)

/-- `GoogleCalendarService.parseTimeRange`. -/
def parseTimeRange (timeRange dateString : String) :
    Except String (JSDate × JSDate) := do
  let parts := jsSplit " - " timeRange
  let baseDate := jsNewDate dateString
  let startTime ← parseTimeStrJS (parts.get? 0) baseDate
  let endTime ← parseTimeStrJS (parts.get? 1) baseDate
  pure (startTime, endTime)

/-- `GoogleCalendarService.convertToCalendarEvent`.  The `Except` error is
the exception the source lets escape to `syncEvents` (thrown by `.split`
on a missing range part or by `toISOString` on an invalid date). -/
def convertToCalendarEvent (e : ParsedTimetableEvent) :
    Except String CalendarEvent := do
  let times ← parseTimeRange e.time e.date
  let sIso ← toISOStringE times.1
  let eIso ← toISOStringE times.2
  pure { id := e.id, title := e.title, description := buildEventDescription e,
         startTime := sIso, endTime := eIso, location := e.location,
         colorId := colorFor e.etype,
         reminders := ⟨false, reminderDefaults⟩ }

/-- Fuel-structural worker for `chunkArray` (fuel = input length; with a
positive size each step consumes at least one element). -/
def chunkGo (size : Nat) : Nat → List α → List (List α)
  | _, [] => []
  | 0, l => [l]
  | fuel + 1, c :: cs => (c :: cs).take size :: chunkGo size fuel ((c :: cs).drop size)

/-- `GoogleCalendarService.chunkArray` (only ever called with size 5; a
zero size would loop forever in the source and is mapped to `[]`). -/
def chunkArray (l : List α) (size : Nat) : List (List α) :=
  if size = 0 then [] else chunkGo size l.length l

/-- One create-event attempt inside a sync batch: the `try/catch` around
`createEvent` in `syncEvents`.  `create gi ev` is the oracle outcome of
the whole `createEvent` network call for the event at global index `gi`
(`.ok` = created id, `.error` = the message of the error it threw). -/
def processEvent (create : Nat → CalendarEvent → Except String String)
    (acc : SyncResult) (gi : Nat) (ev : CalendarEvent) : SyncResult :=
  match create gi ev with
  | .ok _ => { acc with eventsCreated := acc.eventsCreated + 1 }
  | .error msg =>
    { acc with
      eventsFailed := acc.eventsFailed + 1
      errors := acc.errors ++ [⟨ev.id, msg⟩] }

/-- One batch of `syncEvents` (`batchSize = 5`; `globalIndex =
batchIndex * batchSize + index`, with `idx` the index the JS `map`
callback receives).  The source issues the calls of a batch
concurrently; the counter updates commute and the per-event outcomes are
independent of the interleaving, so the model processes them in index
order (only the order of `errors` within one batch could differ). -/
def processBatch (create : Nat → CalendarEvent → Except String String)
    (bIdx : Nat) (idx : Nat) : List CalendarEvent → SyncResult → SyncResult
  | [], acc => acc
  | e :: es, acc =>
    processBatch create bIdx (idx + 1) es (processEvent create acc (bIdx * 5 + idx) e)

/-- The batch loop of `syncEvents`. -/
def processBatches (create : Nat → CalendarEvent → Except String String)
    (bIdx : Nat) : List (List CalendarEvent) → SyncResult → SyncResult
  | [], acc => acc
  | b :: bs, acc => processBatches create (bIdx + 1) bs (processBatch create bIdx 0 b acc)

/-- `GoogleCalendarService.syncEvents` (progress callbacks and delays,
which do not affect the result, are not modeled). -/
def syncEvents (calendarId : String) (timetableEvents : List ParsedTimetableEvent)
    (create : Nat → CalendarEvent → Except String String) :
    Except String SyncResult :=
  match mapEx convertToCalendarEvent timetableEvents with
  | .error msg => .error ("Failed to sync events: " ++ msg)
  | .ok calendarEvents =>
    let batches := chunkArray calendarEvents 5
    let init : SyncResult := ⟨false, 0, 0, 0, [], calendarId⟩
    let r := processBatches create 0 batches init
    .ok { r with success := r.eventsFailed = 0 }

/-! SECTION 6: the local file parser (`LocalFileParser`). -/

/-- `dayNames` of `normalizeDate`. -/
def dayNames : List String :=
  ["sunday", "monday", "tuesday", "wednesday", "thursday", "friday", "saturday"]

/-- `LocalFileParser.cleanTitle`: `trim` then collapse whitespace runs. -/
def cleanTitle (title : String) : String := ⟨squashWs [' '] (trimC title.data)⟩

/-- Case-insensitive `(AM|PM)` at the head of the input (true = PM). -/
def matchMeridiem : List Char → Option (Bool × List Char)
  | c1 :: c2 :: rest =>
    if (c1 = 'A' || c1 = 'a') && (c2 = 'M' || c2 = 'm') then some (false, rest)
    else if (c1 = 'P' || c1 = 'p') && (c2 = 'M' || c2 = 'm') then some (true, rest)
    else none
  | _ => none

/-- `\s*(AM|PM)`: greedy whitespace then the marker (whitespace and the
marker letters are disjoint, so the greedy match needs no backtracking). -/
def matchSpacesMeridiem (l : List Char) : Option (Bool × List Char) :=
  matchMeridiem (l.dropWhile isWsp)

/-- `:?(\d{2})?\s*(AM|PM)` after the hour digits of the `convert12to24`
regex, with the engine's backtracking order over the two optional
groups: (colon, minutes), (colon, none), (no colon, minutes),
(no colon, none).  Yields the captured minutes (default `"00"`), the
meridiem, and the unconsumed rest. -/
def matchTail (l : List Char) : Option (String × Bool × List Char) :=
  (match l with
   | ':' :: d1 :: d2 :: rest =>
     if d1.isDigit && d2.isDigit then
       (matchSpacesMeridiem rest).map (fun p => (⟨[d1, d2]⟩, p.1, p.2))
     else none
   | _ => none)
  <|>
  (match l with
   | ':' :: rest => (matchSpacesMeridiem rest).map (fun p => ("00", p.1, p.2))
   | _ => none)
  <|>
  (match l with
   | d1 :: d2 :: rest =>
     if d1.isDigit && d2.isDigit then
       (matchSpacesMeridiem rest).map (fun p => (⟨[d1, d2]⟩, p.1, p.2))
     else none
   | _ => none)
  <|> (matchSpacesMeridiem l).map (fun p => ("00", p.1, p.2))

/-- The full pattern `(\d{1,2}):?(\d{2})?\s*(AM|PM)` at the head of the
input: greedy one-or-two-digit hour with backtracking, then the tail.
Yields `parseInt(hours)`, minutes, meridiem, rest. -/
def matchClock (l : List Char) : Option (Nat × String × Bool × List Char) :=
  (match l with
   | d1 :: d2 :: rest =>
     if d1.isDigit && d2.isDigit then
       (matchTail rest).map (fun p => (digitVal d1 * 10 + digitVal d2, p))
     else none
   | _ => none)
  <|>
  (match l with
   | d1 :: rest =>
     if d1.isDigit then (matchTail rest).map (fun p => (digitVal d1, p))
     else none
   | _ => none)

/-- The hour arithmetic of the `convert12to24` replacement callback. -/
def meridiemAdjust (h : Nat) (pm : Bool) : Nat :=
  if pm && h ≠ 12 then h + 12 else if !pm && h = 12 then 0 else h

/-- The replacement text `${h padded 2}:${minutes}`. -/
def replacement12 (h : Nat) (minutes : String) (pm : Bool) : List Char :=
  pad2 (meridiemAdjust h pm) ++ [':'] ++ minutes.data

/-- The global (`/g`) scan of `replace`: try the pattern at each
position, emit the replacement and continue after the match.  A match
consumes at least three characters, so the fuel (initial length) never
runs out before the input does. -/
def convert12go : Nat → List Char → List Char
  | _, [] => []
  | 0, l => l
  | fuel + 1, c :: cs =>
    match matchClock (c :: cs) with
    | some (h, minutes, pm, rest) => replacement12 h minutes pm ++ convert12go fuel rest
    | none => c :: convert12go fuel cs

/-- `LocalFileParser.convert12to24`:
`time.replace(/(\d{1,2}):?(\d{2})?\s*(AM|PM)/gi, ...)`. -/
def convert12to24 (time : String) : String := ⟨convert12go time.data.length time.data⟩

/-- `LocalFileParser.addMinutes`: split on `:`, `Number` both parts,
`setHours(hours, mins + minutes)` on a fresh date, read back
`getHours`/`getMinutes` zero-padded.  A `NaN` part prints as
`"NaN:NaN"`; otherwise the result is the clock time `minutes` after the
start, modulo the day (the `Date` normalizes overflow). -/
def addMinutes (timeStr : String) (minutes : Int) : String :=
  let parts := jsSplit ":" timeStr
  let hours := (parts.get? 0).bind (fun p => toNumber p.data)
  let mins := (parts.get? 1).bind (fun p => toNumber p.data)
  match hours, mins with
  | some h, some m =>
    let total : Int := h * 60 + m + minutes
    ⟨pad2 ((total.ediv 60).emod 24).toNat ++ [':'] ++ pad2 (total.emod 60).toNat⟩
  | _, _ => "NaN:NaN"

/-- `LocalFileParser.normalizeTime`. -/
def normalizeTime (time : String) : String :=
  let time := jsTrim time
  let time :=
    if jsIncludes time "AM" || jsIncludes time "PM" then convert12to24 time else time
  if !(jsIncludes time " - ") then
    let startTime := time
    let endTime := addMinutes startTime 90
    startTime ++ " - " ++ endTime
  else time

/-- The `dayNames.findIndex(day => date.toLowerCase().includes(day))`
step of `normalizeDate` (`none` = `-1`). -/
def findWeekdayIndex (s : String) : Option Nat :=
  dayNames.findIdx? (fun day => containsL (jsToLower s).data day.data)

/-- `LocalFileParser.normalizeDate` (`today` is the current epoch day). -/
def normalizeDate (today : Nat) (date : String) : String :=
  match findWeekdayIndex date with
  | some i => getNextWeekdayLocal today i
  | none =>
    let parsed := jsNewDate date
    if parsed.valid then
      ⟨isoPad4 parsed.year ++ ['-'] ++ isoPad2 parsed.month ++ ['-'] ++ isoPad2 parsed.day⟩
    else getNextWeekdayLocal today 1

/-- `LocalFileParser.normalizeEventType`. -/
def normalizeEventType (t : String) : String :=
  let normalized := jsToLower t
  if jsIncludes normalized "lab" then "lab"
  else if jsIncludes normalized "tutorial" || jsIncludes normalized "seminar" then "tutorial"
  else if jsIncludes normalized "meeting" then "meeting"
  else if jsIncludes normalized "break" then "break"
  else "lecture"

/-- JS `${n}` for an integer (used for the duration components, which JS
prints with a sign when negative). -/
def intRepr (n : Int) : String :=
  if n < 0 then ⟨'-' :: natRepr (-n).toNat⟩ else ⟨natRepr n.toNat⟩

/-- `LocalFileParser.calculateDuration`: difference of the two clock
times in minutes, rendered `"Xh Ym"`/`"Xh"`/`"Ym"`.  `Math.floor` of the
hour quotient is euclidean-style flooring and the JS `%` keeps the
dividend's sign; a `NaN` component renders as `"NaNm"`; a missing second
range part throws inside the `try` and yields `"1h 30m"`. -/
def calculateDurationLocal (timeString : String) : String :=
  let parts := jsSplit " - " timeString
  match parts.get? 0, parts.get? 1 with
  | some s, some e =>
    let sh := ((jsSplit ":" s).get? 0).bind (fun p => toNumber p.data)
    let sm := ((jsSplit ":" s).get? 1).bind (fun p => toNumber p.data)
    let eh := ((jsSplit ":" e).get? 0).bind (fun p => toNumber p.data)
    let em := ((jsSplit ":" e).get? 1).bind (fun p => toNumber p.data)
    match sh, sm, eh, em with
    | some a, some b, some c, some d =>
      let diff : Int := (c * 60 + d) - (a * 60 + b)
      let hours := diff.ediv 60
      let minutes := diff.tmod 60
      if hours > 0 && minutes > 0 then intRepr hours ++ "h " ++ intRepr minutes ++ "m"
      else if hours > 0 then intRepr hours ++ "h"
      else intRepr minutes ++ "m"
    | _, _, _, _ => "NaNm"
  | _, _ => "1h 30m"

/-- `LocalFileParser.parseLocation`: comma split into room/building. -/
def parseLocation (location : String) : Option String × Option String :=
  let parts := (jsSplit "," location).map jsTrim
  if 2 ≤ parts.length then (parts.get? 0, parts.get? 1)
  else if jsIncludes (jsToLower location) "room" then (some location, none)
  else (none, some location)

/-- The field alias tables of `mapRowToEvent`. -/
def titleKeys : List String :=
  ["title", "course", "subject", "event", "name", "course name", "event name"]

/-- Aliases for `time`. -/
def timeKeys : List String := ["time", "schedule", "period", "hours", "timing"]

/-- Aliases for `date`. -/
def dateKeys : List String := ["date", "day", "when"]

/-- Aliases for `location`. -/
def locationKeys : List String := ["location", "room", "venue", "place", "where"]

/-- Aliases for `type`. -/
def typeKeys : List String := ["type", "category", "kind"]

/-- Aliases for `instructor`. -/
def instructorKeys : List String :=
  ["instructor", "teacher", "professor", "lecturer", "prof"]

/-- Aliases for `courseCode`. -/
def courseCodeKeys : List String := ["code", "course code", "subject code", "id"]

/-- Aliases for `duration`. -/
def durationKeys : List String := ["duration", "length"]

/-- Property read on a parsed row object (rows come from PapaParse /
SheetJS and may hold non-string cell values, hence `JSVal`). -/
def rowGet (row : List (String × JSVal)) (k : String) : JSVal :=
  (lookupField row k).getD .undefV

/-- `LocalFileParser.findValueByKeys`: first alias (also tried with
whitespace removed or replaced by `_`) whose value is a truthy string
with non-empty trim; the trimmed value is returned. -/
def findValueByKeys (row : List (String × JSVal)) (keys : List String) :
    Option String :=
  match keys with
  | [] => none
  | k :: rest =>
    let value := jsOrV (rowGet row k)
      (jsOrV (rowGet row ⟨squashWs [] k.data⟩) (rowGet row ⟨squashWs ['_'] k.data⟩))
    match value with
    | .str s => if (jsTrim s).isEmpty then findValueByKeys row rest else some (jsTrim s)
    | _ => findValueByKeys row rest

/-- The generated id `local-parsed-${Date.now()}-${index}`. -/
def localGenId (now index : Nat) : String :=
  ⟨("local-parsed-".data) ++ natRepr now ++ ['-'] ++ natRepr index⟩

/-- `LocalFileParser.mapRowToEvent` (`now` = `Date.now()` at this row,
`today` = current epoch day). -/
def mapRowToEvent (row : List (String × JSVal)) (index : Nat) (now : Nat)
    (today : Nat) : Option ParsedTimetableEvent :=
  let title? := findValueByKeys row titleKeys
  let time? := findValueByKeys row timeKeys
  let date? := findValueByKeys row dateKeys
  let location? := findValueByKeys row locationKeys
  let type? := findValueByKeys row typeKeys
  let instructor? := findValueByKeys row instructorKeys
  let courseCode? := findValueByKeys row courseCodeKeys
  let duration? := findValueByKeys row durationKeys
  match title? with
  | none => none
  | some title =>
    let time := normalizeTime (time?.getD "09:00 - 10:30")
    let location := location?.getD "TBD"
    let loc := parseLocation location
    some { id := localGenId now index
           title := cleanTitle title
           time := time
           date := normalizeDate today (date?.getD (getNextWeekdayLocal today 1))
           location := location
           etype := normalizeEventType (type?.getD "lecture")
           duration := duration?.getD (calculateDurationLocal time)
           instructor := instructor?
           courseCode := courseCode?
           room := loc.1
           building := loc.2 }

/-- `LocalFileParser.convertRowsToEvents` (`now i` = `Date.now()` when
row `i` is mapped; rows whose mapping yields no event are dropped). -/
def convertRowsToEvents (rows : List (List (String × JSVal)))
    (now : Nat → Nat) (today : Nat) : List ParsedTimetableEvent :=
  rows.enum.filterMap (fun p => mapRowToEvent p.2 p.1 (now p.1) today)

/-! SECTION 7: the LLM parser service (`LLMTimetableParser`). -/

/-- `validTypes` of `validateEventType`. -/
def validTypes : List String := ["lecture", "lab", "tutorial", "meeting", "break"]

/-- `LLMTimetableParser.validateEventType`.  The argument is the raw
`event.type` value from the model's JSON: `type?.toLowerCase()` leaves
`null`/`undefined` as a non-matching `undefined`, works on strings, and
throws a `TypeError` on any other value. -/
def validateEventType (t : JSVal) : Except String String :=
  match t with
  | .undefV => .ok "lecture"
  | .null => .ok "lecture"
  | .str s =>
    let normalizedType := jsToLower s
    if validTypes.contains normalizedType then .ok normalizedType
    else if jsIncludes normalizedType "lab" then .ok "lab"
    else if jsIncludes normalizedType "tutorial" || jsIncludes normalizedType "seminar" then
      .ok "tutorial"
    else if jsIncludes normalizedType "meeting" then .ok "meeting"
    else if jsIncludes normalizedType "break" then .ok "break"
    else .ok "lecture"
  | _ => .error "TypeError: toLowerCase is not a function"

/-- `LLMTimetableParser.calculateDuration`: like the local parser's
version but through `Date` objects.  Both `parseTimeString` calls use a
fresh `new Date()` of the same day, so only the clock times matter; the
`Date` timestamp is linear in the `setHours` arguments, so the
millisecond difference is the minute difference even for out-of-range
numeric components.  A non-string argument (`event.time` absent) makes
`.split` throw, caught to `"1h 30m"`. -/
def calculateDurationLLM (timeString : JSVal) : String :=
  match timeString with
  | .str s =>
    let parts := jsSplit " - " s
    let base : JSDate := ⟨true, 2024, 1, 1, 0, 0⟩
    match parseTimeStrJS (parts.get? 0) base, parseTimeStrJS (parts.get? 1) base with
    | .ok st, .ok en =>
      if st.valid && en.valid then
        let diff : Int := (en.hh * 60 + en.mi) - (st.hh * 60 + st.mi)
        let diffHours := diff.ediv 60
        let diffMinutes := diff.tmod 60
        if diffHours > 0 && diffMinutes > 0 then
          intRepr diffHours ++ "h " ++ intRepr diffMinutes ++ "m"
        else if diffHours > 0 then intRepr diffHours ++ "h"
        else intRepr diffMinutes ++ "m"
      else "NaNm"
    | _, _ => "1h 30m"
  | _ => "1h 30m"

/-- The generated id `llm-parsed-${Date.now()}-${index}`. -/
def llmGenId (now index : Nat) : String :=
  ⟨("llm-parsed-".data) ++ natRepr now ++ ['-'] ++ natRepr index⟩

/-- A validated event as assembled by `parseJSONResponse`.  The source
applies `||` defaults to untyped JSON data, so every field except the
validated `type` keeps whatever JS value won the `||`. -/
structure VEvent where
  id : JSVal
  title : JSVal
  time : JSVal
  date : JSVal
  location : JSVal
  etype : String
  duration : JSVal
  instructor : JSVal
  courseCode : JSVal
  room : JSVal
  building : JSVal

/-- JS `x || undefined` (the optional-field defaults). -/
def orUndef (v : JSVal) : JSVal := if truthy v then v else .undefV

/-- The per-event validator inside `parseJSONResponse`'s `events.map`:
property reads throw on a nullish element, `validateEventType` throws on
a non-string non-nullish `type`; otherwise every field is defaulted with
`||`.  `now` is `Date.now()` at this element, `idx` the map index,
`today` the current epoch day (for the `getNextWeekday(0)` date
default). -/
def validateEvent (ev : JSVal) (now idx today : Nat) : Except String VEvent := do
  let vid ← getField ev "id"
  let vtitle ← getField ev "title"
  let vtime ← getField ev "time"
  let vdate ← getField ev "date"
  let vloc ← getField ev "location"
  let vtype ← getField ev "type"
  let ty ← validateEventType vtype
  let vdur ← getField ev "duration"
  let vinstr ← getField ev "instructor"
  let vcode ← getField ev "courseCode"
  let vroom ← getField ev "room"
  let vbuild ← getField ev "building"
  pure { id := jsOrV vid (.str (llmGenId now idx))
         title := jsOrV vtitle (.str "Untitled Event")
         time := jsOrV vtime (.str "09:00 - 10:00")
         date := jsOrV vdate (.str (getNextWeekdayLLM today 0))
         location := jsOrV vloc (.str "TBD")
         etype := ty
         duration := jsOrV vdur (.str (calculateDurationLLM vtime))
         instructor := orUndef vinstr
         courseCode := orUndef vcode
         room := orUndef vroom
         building := orUndef vbuild }

/-- The result of `parseJSONResponse` (the `rawResponse` pass-through of
the content string is not modeled; the content reaches the model only as
its parse outcome). -/
structure ParseResultJ where
  success : Bool
  events : List VEvent
  confidence : JSVal
  errors : List String

/-- Body of the `try` of `LLMTimetableParser.parseJSONResponse` past the
`JSON.parse` call.  `parsed` is the parsed reply; `now i` is `Date.now()`
when element `i` is validated. -/
def parseJSONRun (parsed : JSVal) (now : Nat → Nat) (today : Nat) :
    Except String (List VEvent × JSVal) := do
  let ev ← getField parsed "events"
  let conf ← getField parsed "confidence"
  let events := jsOrV ev (.arr [])
  let confidence := jsOrV conf (.num 75)
  match events with
  | .arr elems =>
    let velems ← mapIdxEx (fun i e => validateEvent e (now i) i today) elems
    pure (velems, confidence)
  | _ => .error "Events is not an array"

/-- Continuation of `parseJSONResponse` past the `JSON.parse` call: the
`events`/`confidence` defaults, the array check and the per-event
validation map (`parseJSONRun` is the body of its `try`). -/
def parseJSONResponse (parsed? : Option JSVal) (now : Nat → Nat) (today : Nat) :
    ParseResultJ :=
  match parsed? with
  | none => ⟨false, [], .num 0, ["JSON parsing failed"]⟩
  | some parsed =>
    match parseJSONRun parsed now today with
    | .ok r => ⟨true, r.1, r.2, []⟩
    | .error msg => ⟨false, [], .num 0, ["JSON parsing failed: " ++ msg]⟩

/-- The result of the enhancement path: on the success path the source
returns `parsed.enhancedEvents` (raw JSON data, `.inr`) or, when that is
falsy, the original typed events (`.inl`); every failure path returns the
original events. -/
structure ParseResultE where
  success : Bool
  events : (List ParsedTimetableEvent) ⊕ JSVal
  confidence : JSVal
  errors : List String
  enhancedFields : Option JSVal

/-- The field reads inside `parseEnhancementResponse`'s `try` (throws on
a nullish parsed value). -/
def parseEnhancementRun (parsed : JSVal) : Except String (JSVal × JSVal × JSVal) := do
  let ee ← getField parsed "enhancedEvents"
  let conf ← getField parsed "confidence"
  let ef ← getField parsed "enhancedFields"
  pure (ee, conf, ef)

/-- `LLMTimetableParser.parseEnhancementResponse`
(`parseEnhancementRun` is the body of its `try` past `JSON.parse`). -/
def parseEnhancementResponse (parsed? : Option JSVal)
    (originalEvents : List ParsedTimetableEvent) : ParseResultE :=
  match parsed? with
  | none => ⟨false, .inl originalEvents, .num 70, ["Enhancement parsing failed"], none⟩
  | some parsed =>
    match parseEnhancementRun parsed with
    | .ok r =>
      ⟨true, (if truthy r.1 then .inr r.1 else .inl originalEvents),
        jsOrV r.2.1 (.num 80), [], some (jsOrV r.2.2 (.arr []))⟩
    | .error _ =>
      ⟨false, .inl originalEvents, .num 70, ["Enhancement parsing failed"], none⟩

/-- Outcome of one provider HTTP call (`fetch` plus response unpacking):
rejection, non-2xx status, missing content field, or a content string
given by the outcome of `JSON.parse` on its fence-stripped text. -/
inductive LLMOutcome where
  | netError (msg : String)
  | badStatus (msg : String)
  | noContent
  | reply (parsed : Option JSVal)

/-- Body shared by `enhanceWithOpenAI` and `enhanceWithGemini` (they
differ only in endpoint and message wording, which the `msg` payloads
carry): every failure is caught and returns the original events with
confidence 70. -/
def enhanceWithProvider (outcome : LLMOutcome)
    (originalEvents : List ParsedTimetableEvent) : ParseResultE :=
  match outcome with
  | .netError m => ⟨false, .inl originalEvents, .num 70, [m], none⟩
  | .badStatus m => ⟨false, .inl originalEvents, .num 70, [m], none⟩
  | .noContent => ⟨false, .inl originalEvents, .num 70, ["No response from provider"], none⟩
  | .reply parsed => parseEnhancementResponse parsed originalEvents

/-- `LLMTimetableParser.enhanceEvents`: builds the summary and prompt
(pure string work that cannot throw) and dispatches to the provider
call; its own `catch` (events with confidence 70) is unreachable in the
model because the provider functions never throw. -/
def enhanceEvents (events : List ParsedTimetableEvent) (outcome : LLMOutcome) :
    ParseResultE :=
  enhanceWithProvider outcome events

/-! SECTION 8: specification-side helper definitions used by the claim
theorems (reference descriptions the embedded code is compared with, and
concrete inputs for witnesses). -/

/-- Sequential per-event processing with a running global index: the
batching-free description `syncEvents` is proved to implement. -/
def processSeq (create : Nat → CalendarEvent → Except String String)
    (i : Nat) : List CalendarEvent → SyncResult → SyncResult
  | [], acc => acc
  | e :: es, acc => processSeq create (i + 1) es (processEvent create acc i e)

/-- Number of events whose create call succeeds, indices from `i`. -/
def syncCreatedGo (create : Nat → CalendarEvent → Except String String)
    (i : Nat) : List CalendarEvent → Nat
  | [] => 0
  | e :: es =>
    (match create i e with
     | .ok _ => 1
     | .error _ => 0) + syncCreatedGo create (i + 1) es

/-- The `{eventId, error}` entries of the events whose create call
fails, in index order, indices from `i`. -/
def syncFailuresGo (create : Nat → CalendarEvent → Except String String)
    (i : Nat) : List CalendarEvent → List SyncErrorEntry
  | [] => []
  | e :: es =>
    (match create i e with
     | .ok _ => []
     | .error m => [⟨e.id, m⟩]) ++ syncFailuresGo create (i + 1) es

/-- The failure classes of claim C1: provider call rejected, non-2xx
response, malformed JSON in the reply. -/
def isEnhanceFailure : LLMOutcome → Bool
  | .netError _ => true
  | .badStatus _ => true
  | .reply none => true
  | _ => false

/-- A concrete normalized event used by several witnesses. -/
def sampleEvent : ParsedTimetableEvent :=
  { id := "evt-1", title := "Advanced Algorithms", time := "09:00 - 10:30",
    date := "2025-01-06", location := "Room 101, CS Building",
    etype := "lecture", duration := "1h 30m", instructor := some "Dr. Smith",
    courseCode := some "CS401", room := some "Room 101",
    building := some "CS Building" }

/-- Seven concrete events for the C2 witness scenario (ids `evt-1` …
`evt-7`). -/
def c2Events : List ParsedTimetableEvent :=
  (List.range 7).map (fun i =>
    { sampleEvent with id := "evt-" ++ ⟨natRepr (i + 1)⟩ })

/-- Create-call oracle for the C2 witness: event number 4 (global index
3) always fails, every other call succeeds. -/
def c2Create (i : Nat) (_ : CalendarEvent) : Except String String :=
  if i = 3 then .error "rate limit exceeded" else .ok "created-id"

/-- The converted payloads of `c2Events` (evaluated form, used to
discharge the conversion hypothesis of the C2 theorem). -/
def c2Ces : List CalendarEvent :=
  (mapEx convertToCalendarEvent c2Events).toOption.getD []

/-- Specification-side description of when validating one element of the
model's `events` array throws: a nullish element (property reads throw),
or a `type` value that is neither a string nor nullish
(`type?.toLowerCase()` throws). -/
def validateThrows : JSVal → Bool
  | .undefV => true
  | .null => true
  | .obj fs =>
    (match (lookupField fs "type").getD .undefV with
     | .str _ => false
     | .null => false
     | .undefV => false
     | _ => true)
  | _ => false

/-- Specification-side description of when `parseJSONResponse`
fail-closes: JSON syntax error, nullish top-level value, truthy
non-array `events` value, or an `events` array with an element whose
validation throws. -/
def jsonReplyFails : Option JSVal → Bool
  | none => true
  | some .undefV => true
  | some .null => true
  | some (.obj fs) =>
    (let v := (lookupField fs "events").getD .undefV
     if truthy v then
       match v with
       | .arr elems => elems.any validateThrows
       | _ => true
     else false)
  | some _ => false

/-- The record assembled by `validateEvent` for the C4 witness input. -/
def c4SampleV : VEvent :=
  ⟨.str "llm-parsed-5-0", .str "DB", .str "09:00 - 10:00", .str "2024-10-06",
    .str "TBD", "lecture", .str "1h 30m", .undefV, .undefV, .undefV, .undefV⟩

/-- The segment after the last `'-'` (used to invert the generated-id
template `prefix-${Date.now()}-${index}`). -/
def lastDashSeg (l : List Char) : List Char :=
  (l.reverse.takeWhile (fun c => c != '-')).reverse

/-- Is the raw `id` of an event element falsy (so that the generated id
`llm-parsed-${Date.now()}-${index}` is used)? -/
def idFalsy : JSVal → Bool
  | .obj fs => !truthy ((lookupField fs "id").getD .undefV)
  | _ => true

/-- The `daysUntilTarget` computation of the local parser's
`getNextWeekday` (the `(dayOfWeek + 7 - today.getDay()) % 7 || 7`
expression). -/
def nextDelta (today dow : Nat) : Nat :=
  let du := (dow + 7 - jsGetDay today) % 7
  if du = 0 then 7 else du

/-- A two-digit 24-hour clock string `HH:MM`. -/
def clockStr (h m : Nat) : String := ⟨isoPad2 h ++ ':' :: isoPad2 m⟩

/-- An `AM`/`PM` marker in any letter case (`pm` picks the letter,
`c1`/`c2` pick upper case for each position). -/
def meridiemMarker (pm c1 c2 : Bool) : List Char :=
  [if pm then (if c1 then 'P' else 'p') else (if c1 then 'A' else 'a'),
   if c2 then 'M' else 'm']

/-- A well-formed 12-hour clock string: one-or-two-digit hour, optional
`:MM` minutes, optional space, meridiem marker. -/
def render12 (h : Nat) (minutes : Option Nat) (sp pm c1 c2 : Bool) : String :=
  ⟨natRepr h ++
    (match minutes with | some mv => ':' :: isoPad2 mv | none => []) ++
    ((if sp then [' '] else []) ++ meridiemMarker pm c1 c2)⟩

/-- The 24-hour hour the spec prescribes for a 12-hour time:
`12 AM → 00`, `12 PM → 12`, otherwise add 12 in the PM half. -/
def spec24Hour (h : Nat) (pm : Bool) : Nat :=
  if pm then (if h = 12 then 12 else h + 12) else (if h = 12 then 0 else h)

/-- A range part is parseable when `split(':')` yields numeric index-0
and index-1 components (`Number` not `NaN`), which is what `parseTime`
needs for `setHours` to keep the date valid. -/
def parseableClock (s : String) : Bool :=
  (((jsSplit ":" s).get? 0).bind (fun p => toNumber p.data)).isSome &&
  (((jsSplit ":" s).get? 1).bind (fun p => toNumber p.data)).isSome

/-- The corrected gate of claim C3: the FIRST TWO `' - '`-split parts
exist and are parseable (parts beyond the second are ignored by the
destructuring). -/
def firstTwoParseable (time : String) : Bool :=
  match (jsSplit " - " time).get? 0, (jsSplit " - " time).get? 1 with
  | some p0, some p1 => parseableClock p0 && parseableClock p1
  | _, _ => false

/-- Characters of the pipeline's normalized time strings: ASCII digits,
colon, space, and the two JS sign characters.  On strings over this
alphabet `Number()` returns an integer or `NaN`, which is exactly what
`toNumber` models; decimal, exponent and hex forms (where `Number()` is
finite but non-integral) use characters outside it. -/
def tameChar (c : Char) : Bool :=
  c.isDigit || c = ':' || c = ' ' || c = '-' || c = '+'

/-- Every maximal digit run in the list has length at most `n` (`cur`
is the length of the run in progress).  Bounding the runs keeps each
parsed hour/minute value small enough that the `Date` stays inside the
representable range under `setHours`, where validity alone decides
whether `toISOString` throws. -/
def runsLe (n : Nat) : Nat → List Char → Bool
  | cur, [] => cur ≤ n
  | cur, c :: cs =>
    if c.isDigit then runsLe n (cur + 1) cs else cur ≤ n && runsLe n 0 cs

/-- A tame time string: drawn from the digit/colon/space/sign alphabet
with digit runs of at most six characters.  This is the domain on which
the integer `Number` model and the unnormalized-`Date` model coincide
with the JavaScript originals (every time range the parsers emit is of
this form). -/
def tameTime (s : String) : Bool := s.data.all tameChar && runsLe 6 0 s.data

/-- The `YYYY-MM-DD` rendering of a civil date, the form the structured
parser's `normalizeDate` emits and `new Date(dateString)` consumes. -/
def dateStr (y mo d : Nat) : String :=
  ⟨isoPad4 y ++ ['-'] ++ isoPad2 mo ++ ['-'] ++ isoPad2 d⟩

/-- Reconstruction of the calendar date from an ISO timestamp: its first
ten characters (`YYYY-MM-DD`). -/
def dateOfISO (s : String) : String := ⟨s.data.take 10⟩

/-- Reconstruction of the wall-clock time from an ISO timestamp: five
characters (`HH:MM`) after the `T` separator. -/
def clockOfISO (s : String) : String := ⟨(s.data.drop 11).take 5⟩

/-! SECTION 9: theorems for the claims, with their supporting lemmas. -/
theorem dropWhile_len_le (p : Char → Bool) (l : List Char) :
    (l.dropWhile p).length ≤ l.length := by
  induction l with
  | nil => simp
  | cons c cs ih =>
    rw [List.dropWhile_cons]
    split
    · simpa using Nat.le_succ_of_le ih
    · simp

theorem decChar_isDigit {d : Nat} (h : d < 10) : (decChar d).isDigit = true := by
  interval_cases d <;> decide

theorem digitVal_decChar {d : Nat} (h : d < 10) : digitVal (decChar d) = d := by
  interval_cases d <;> decide

theorem decChar_ne {d : Nat} (h : d < 10) :
    decChar d ≠ '-' ∧ decChar d ≠ ' ' ∧ decChar d ≠ ':' ∧ decChar d ≠ 'T' ∧
      isWsp (decChar d) = false := by
  interval_cases d <;> decide

theorem natReprAux_digits : ∀ (fuel n : Nat) (acc : List Char), n ≠ 0 → n ≤ fuel →
    natReprAux fuel n acc = ((Nat.digits 10 n).map decChar).reverse ++ acc := by
  intro fuel
  induction fuel with
  | zero => intro n acc hn hle; omega
  | succ fuel ih =>
    intro n acc hn hle
    rw [natReprAux]
    split
    · rename_i hlt
      rw [Nat.digits_def' (by norm_num : (1 : Nat) < 10) (Nat.pos_of_ne_zero hn)]
      rw [Nat.mod_eq_of_lt hlt, Nat.div_eq_of_lt hlt]
      simp
    · rename_i hge
      push_neg at hge
      have hq : n / 10 ≠ 0 := by
        have h1 : 10 / 10 ≤ n / 10 := Nat.div_le_div_right hge
        omega
      have hqle : n / 10 ≤ fuel := by
        have := Nat.div_lt_self (Nat.pos_of_ne_zero hn) (by norm_num : 1 < 10)
        omega
      rw [ih (n / 10) _ hq hqle]
      rw [Nat.digits_def' (by norm_num : (1 : Nat) < 10) (Nat.pos_of_ne_zero hn)]
      simp

theorem natRepr_eq_digits {n : Nat} (hn : n ≠ 0) :
    natRepr n = ((Nat.digits 10 n).map decChar).reverse := by
  unfold natRepr
  rw [natReprAux_digits (n + 1) n [] hn (Nat.le_succ n)]
  simp

theorem natRepr_no_dash (n : Nat) : ∀ c ∈ natRepr n, c ≠ '-' := by
  by_cases hn : n = 0
  · subst hn
    intro c hc
    simp [natRepr, natReprAux] at hc
    subst hc
    decide
  · rw [natRepr_eq_digits hn]
    intro c hc
    rw [List.mem_reverse, List.mem_map] at hc
    obtain ⟨d, hd, rfl⟩ := hc
    exact (decChar_ne (Nat.digits_lt_base (by norm_num) hd)).1

theorem natRepr_all_digits (n : Nat) : allDigits (natRepr n) = true := by
  by_cases hn : n = 0
  · subst hn
    decide
  · rw [natRepr_eq_digits hn]
    unfold allDigits
    rw [List.all_eq_true]
    intro c hc
    rw [List.mem_reverse, List.mem_map] at hc
    obtain ⟨d, hd, rfl⟩ := hc
    exact decChar_isDigit (Nat.digits_lt_base (by norm_num) hd)

theorem natRepr_zero_iff {n : Nat} (h : natRepr n = ['0']) : n = 0 := by
  by_contra hn
  rw [natRepr_eq_digits hn] at h
  have h0 : (Nat.digits 10 n).map decChar = ['0'] := by
    have := congrArg List.reverse h
    simpa using this
  have hlen : (Nat.digits 10 n).length = 1 := by
    have := congrArg List.length h0
    simpa using this
  obtain ⟨d, hd⟩ := List.length_eq_one.mp hlen
  rw [hd] at h0
  simp at h0
  have hd10 : d < 10 := Nat.digits_lt_base (by norm_num) (by rw [hd]; simp)
  have hdz : d = 0 := by
    have hv := digitVal_decChar hd10
    rw [h0] at hv
    simpa [digitVal] using hv.symm
  have := Nat.ofDigits_digits 10 n
  rw [hd, hdz] at this
  simp [Nat.ofDigits] at this
  exact hn this.symm

theorem natRepr_inj {m n : Nat} (h : natRepr m = natRepr n) : m = n := by
  by_cases hm : m = 0
  · subst hm
    exact (natRepr_zero_iff h.symm).symm
  · by_cases hn : n = 0
    · subst hn
      exact natRepr_zero_iff h
    · rw [natRepr_eq_digits hm, natRepr_eq_digits hn] at h
      have h2 : (Nat.digits 10 m).map decChar = (Nat.digits 10 n).map decChar := by
        have := congrArg List.reverse h
        simpa using this
      have hrec : ∀ k : Nat,
          ((Nat.digits 10 k).map decChar).map digitVal = Nat.digits 10 k := by
        intro k
        rw [List.map_map]
        refine (List.map_congr_left ?_).trans (List.map_id _)
        intro d hd
        exact digitVal_decChar (Nat.digits_lt_base (by norm_num) hd)
      have hdig : Nat.digits 10 m = Nat.digits 10 n := by
        rw [← hrec m, ← hrec n, h2]
      have := congrArg (Nat.ofDigits 10) hdig
      simpa [Nat.ofDigits_digits] using this

theorem processBatch_eq_seq (create : Nat → CalendarEvent → Except String String) :
    ∀ (l : List CalendarEvent) (b j : Nat) (acc : SyncResult),
    processBatch create b j l acc = processSeq create (b * 5 + j) l acc := by
  intro l
  induction l with
  | nil => intro b j acc; rfl
  | cons e es ih =>
    intro b j acc
    rw [processBatch, processSeq, ih]
    have h : b * 5 + (j + 1) = b * 5 + j + 1 := by omega
    rw [h]

theorem processSeq_append (create : Nat → CalendarEvent → Except String String) :
    ∀ (l1 l2 : List CalendarEvent) (i : Nat) (acc : SyncResult),
    processSeq create i (l1 ++ l2) acc =
      processSeq create (i + l1.length) l2 (processSeq create i l1 acc) := by
  intro l1
  induction l1 with
  | nil => intro l2 i acc; simp [processSeq]
  | cons e es ih =>
    intro l2 i acc
    rw [List.cons_append, processSeq, processSeq, ih]
    have h : i + (e :: es).length = i + 1 + es.length := by simp; omega
    rw [h]

theorem processBatches_chunks (create : Nat → CalendarEvent → Except String String) :
    ∀ (fuel : Nat) (l : List CalendarEvent) (b : Nat) (acc : SyncResult),
    l.length ≤ fuel →
    processBatches create b (chunkGo 5 fuel l) acc = processSeq create (b * 5) l acc := by
  intro fuel
  induction fuel with
  | zero =>
    intro l b acc hle
    cases l with
    | nil => rfl
    | cons c cs => simp at hle
  | succ fuel ih =>
    intro l b acc hle
    cases l with
    | nil => rfl
    | cons c cs =>
      rw [chunkGo, processBatches, processBatch_eq_seq]
      simp only [Nat.add_zero]
      rw [ih ((c :: cs).drop 5) (b + 1) _ (by simp at hle ⊢; omega)]
      conv_rhs => rw [← List.take_append_drop 5 (c :: cs)]
      rw [processSeq_append]
      by_cases h5 : 5 ≤ (c :: cs).length
      · rw [List.length_take, Nat.min_eq_left h5]
        have h : b * 5 + 0 + 5 = (b + 1) * 5 := by omega
        rw [h]
      · have hd : (c :: cs).drop 5 = [] := by
          rw [List.drop_eq_nil_iff]
          omega
        rw [hd]
        rfl

theorem processSeq_spec (create : Nat → CalendarEvent → Except String String) :
    ∀ (l : List CalendarEvent) (i : Nat) (acc : SyncResult),
    processSeq create i l acc =
      ⟨acc.success, acc.eventsCreated + syncCreatedGo create i l, acc.eventsUpdated,
        acc.eventsFailed + (syncFailuresGo create i l).length,
        acc.errors ++ syncFailuresGo create i l, acc.calendarId⟩ := by
  intro l
  induction l with
  | nil => intro i acc; simp [processSeq, syncCreatedGo, syncFailuresGo]
  | cons e es ih =>
    intro i acc
    rw [processSeq, ih]
    cases hc : create i e with
    | ok v =>
      simp only [processEvent, syncCreatedGo, syncFailuresGo, hc]
      simp only [SyncResult.mk.injEq, List.length_append, List.nil_append,
        List.append_assoc]
      and_intros <;> first | trivial | omega
    | error m =>
      simp only [processEvent, syncCreatedGo, syncFailuresGo, hc]
      simp only [SyncResult.mk.injEq, List.length_append, List.length_cons,
        List.length_nil, List.append_assoc, List.singleton_append]
      and_intros <;> first | trivial | omega

/-- Claim C1: for every list of input events, if any failure occurs
during enhancement (network error, non-2xx provider response, or
malformed JSON in the model reply), `enhanceEvents` returns a
`ParseResult` whose events field is exactly the input event list,
unchanged, with confidence 70.  (The embedding of `enhanceEvents` is a
total function, so enhancement failure never throws to the caller.) -/
theorem c1_enhance_failure_returns_original_events
    (events : List ParsedTimetableEvent) (outcome : LLMOutcome)
    (h : isEnhanceFailure outcome = true) :
    (enhanceEvents events outcome).events = .inl events ∧
      (enhanceEvents events outcome).confidence = .num 70 := by
  cases outcome with
  | netError m => exact ⟨rfl, rfl⟩
  | badStatus m => exact ⟨rfl, rfl⟩
  | noContent => simp [isEnhanceFailure] at h
  | reply parsed =>
    cases parsed with
    | none => exact ⟨rfl, rfl⟩
    | some v => simp [isEnhanceFailure] at h

/-- Witness for C1 at a concrete input: a malformed-JSON reply on a
one-event list keeps that event and sets confidence 70. -/
theorem c1_witness :
    isEnhanceFailure (.reply none) = true ∧
      (enhanceEvents [sampleEvent] (.reply none)).events = .inl [sampleEvent] ∧
      (enhanceEvents [sampleEvent] (.reply none)).confidence = .num 70 :=
  ⟨rfl, (c1_enhance_failure_returns_original_events [sampleEvent] (.reply none) rfl).1,
    (c1_enhance_failure_returns_original_events [sampleEvent] (.reply none) rfl).2⟩

/-- Claim C2: in `syncEvents` each event's outcome is independent — the
result is exactly the aggregate of the per-event create outcomes: each
failure contributes one increment of `eventsFailed` and one
`{eventId, error}` entry, each success one increment of `eventsCreated`,
no failure aborts the batch or later batches, and the final `success`
flag is true iff `eventsFailed` is zero.  `create` is the oracle for the
individual `createEvent` calls and `ces` the mapped payload list. -/
theorem c2_sync_partial_failure_isolation
    (calendarId : String) (events : List ParsedTimetableEvent)
    (create : Nat → CalendarEvent → Except String String)
    (ces : List CalendarEvent)
    (hconv : mapEx convertToCalendarEvent events = .ok ces) :
    syncEvents calendarId events create = .ok
      { success := decide ((syncFailuresGo create 0 ces).length = 0)
        eventsCreated := syncCreatedGo create 0 ces
        eventsUpdated := 0
        eventsFailed := (syncFailuresGo create 0 ces).length
        errors := syncFailuresGo create 0 ces
        calendarId := calendarId } ∧
    ∀ r, syncEvents calendarId events create = .ok r →
      (r.success = true ↔ r.eventsFailed = 0) := by
  have hmain : syncEvents calendarId events create = .ok
      { success := decide ((syncFailuresGo create 0 ces).length = 0)
        eventsCreated := syncCreatedGo create 0 ces
        eventsUpdated := 0
        eventsFailed := (syncFailuresGo create 0 ces).length
        errors := syncFailuresGo create 0 ces
        calendarId := calendarId } := by
    unfold syncEvents
    rw [hconv]
    have hchunk : chunkArray ces 5 = chunkGo 5 ces.length ces := by
      simp [chunkArray]
    simp only [hchunk]
    rw [processBatches_chunks create ces.length ces 0 _ (Nat.le_refl _)]
    simp only [Nat.zero_mul]
    rw [processSeq_spec]
    simp
  refine ⟨hmain, ?_⟩
  intro r hr
  rw [hmain] at hr
  cases hr
  simp

/-- Witness for C2 at the claim's own scenario: seven events of which
exactly event number 4 (global index 3) fails creation — one failure,
six creations, `success = false`, and a single error entry holding
event 4's id. -/
theorem c2_witness :
    syncEvents "primary" c2Events c2Create =
      .ok ⟨false, 6, 0, 1, [⟨"evt-4", "rate limit exceeded"⟩], "primary"⟩ :=
  (c2_sync_partial_failure_isolation "primary" c2Events c2Create c2Ces rfl).1.trans
    (by rfl)

theorem Except_bind_ok {ε α β : Type} (a : α) (f : α → Except ε β) :
    ((Except.ok a : Except ε α) >>= f) = f a := rfl

theorem Except_bind_error {ε α β : Type} (e : ε) (f : α → Except ε β) :
    ((Except.error e : Except ε α) >>= f) = .error e := rfl

theorem Except_pure {ε α : Type} (a : α) : (pure a : Except ε α) = .ok a := rfl

theorem validateEventType_str (s : String) :
    ∃ r, validateEventType (.str s) = .ok r := by
  unfold validateEventType
  dsimp only
  split_ifs <;> exact ⟨_, rfl⟩

theorem validateEvent_ok_iff (e : JSVal) (n i t : Nat) :
    (∃ v, validateEvent e n i t = .ok v) ↔ validateThrows e = false := by
  cases e with
  | undefV => simp [validateEvent, getField, validateThrows, Except_bind_error]
  | null => simp [validateEvent, getField, validateThrows, Except_bind_error]
  | obj fs =>
    simp only [validateEvent, getField, validateThrows, Except_bind_ok]
    cases hv : (lookupField fs "type").getD .undefV with
    | str s =>
      obtain ⟨r, hr⟩ := validateEventType_str s
      simp [hr, Except_bind_ok, Except_pure]
    | null => simp [validateEventType, Except_bind_ok, Except_pure]
    | undefV => simp [validateEventType, Except_bind_ok, Except_pure]
    | bool b => simp [validateEventType, Except_bind_error]
    | num m => simp [validateEventType, Except_bind_error]
    | arr a => simp [validateEventType, Except_bind_error]
    | obj o => simp [validateEventType, Except_bind_error]
  | bool b => simp [validateEvent, getField, validateThrows, validateEventType,
      Except_bind_ok, Except_pure]
  | num m => simp [validateEvent, getField, validateThrows, validateEventType,
      Except_bind_ok, Except_pure]
  | str s => simp [validateEvent, getField, validateThrows, validateEventType,
      Except_bind_ok, Except_pure]
  | arr a => simp [validateEvent, getField, validateThrows, validateEventType,
      Except_bind_ok, Except_pure]

theorem mapIdx_validate_ok_iff (now : Nat → Nat) (today : Nat) :
    ∀ (l : List JSVal) (i : Nat),
    (∃ vs, mapIdxExGo (fun j e => validateEvent e (now j) j today) i l = .ok vs) ↔
      ∀ e ∈ l, validateThrows e = false := by
  intro l
  induction l with
  | nil => intro i; simp [mapIdxExGo]
  | cons a as ih =>
    intro i
    constructor
    · rintro ⟨vs, hvs⟩
      rw [mapIdxExGo] at hvs
      cases ha : validateEvent a (now i) i today with
      | error m => rw [ha] at hvs; simp [Except_bind_error] at hvs
      | ok v =>
        rw [ha] at hvs
        intro e he
        rcases List.mem_cons.mp he with rfl | hmem
        · exact (validateEvent_ok_iff e (now i) i today).mp ⟨v, ha⟩
        · cases hrec : mapIdxExGo (fun j e => validateEvent e (now j) j today) (i + 1) as with
          | error m => rw [hrec] at hvs; simp [Except_bind_ok, Except_bind_error] at hvs
          | ok ws => exact ((ih (i + 1)).mp ⟨ws, hrec⟩) e hmem
    · intro hall
      obtain ⟨v, hv⟩ := (validateEvent_ok_iff a (now i) i today).mpr
        (hall a (List.mem_cons_self a as))
      obtain ⟨ws, hws⟩ := (ih (i + 1)).mpr (fun e he => hall e (List.mem_cons_of_mem a he))
      exact ⟨v :: ws, by rw [mapIdxExGo, hv, hws]; rfl⟩

theorem parseJSONRun_obj_no_events (fs : List (String × JSVal))
    (now : Nat → Nat) (today : Nat) (h : lookupField fs "events" = none) :
    parseJSONRun (.obj fs) now today =
      .ok ([], jsOrV ((lookupField fs "confidence").getD .undefV) (.num 75)) := by
  unfold parseJSONRun
  simp [getField, h, Except_bind_ok, jsOrV, truthy, mapIdxEx, mapIdxExGo, Except_pure]

theorem parseJSONRun_undef (now : Nat → Nat) (today : Nat) :
    parseJSONRun .undefV now today =
      .error "TypeError: Cannot read properties of undefined" := rfl

theorem parseJSONRun_null (now : Nat → Nat) (today : Nat) :
    parseJSONRun .null now today =
      .error "TypeError: Cannot read properties of null" := rfl

theorem parseJSONRun_obj_falsy (fs : List (String × JSVal))
    (now : Nat → Nat) (today : Nat)
    (ht : truthy ((lookupField fs "events").getD .undefV) = false) :
    parseJSONRun (.obj fs) now today =
      .ok ([], jsOrV ((lookupField fs "confidence").getD .undefV) (.num 75)) := by
  unfold parseJSONRun
  simp only [getField, Except_bind_ok]
  have hj : jsOrV ((lookupField fs "events").getD .undefV) (.arr []) = .arr [] := by
    simp [jsOrV, ht]
  rw [hj]
  simp [mapIdxEx, mapIdxExGo, Except_bind_ok, Except_pure]

theorem parseJSONRun_obj_truthy_nonarr (fs : List (String × JSVal))
    (v : JSVal) (now : Nat → Nat) (today : Nat)
    (hl : (lookupField fs "events").getD .undefV = v)
    (ht : truthy v = true) (hna : ∀ elems, v ≠ .arr elems) :
    parseJSONRun (.obj fs) now today = .error "Events is not an array" := by
  unfold parseJSONRun
  simp only [getField, Except_bind_ok, hl]
  have hj : jsOrV v (.arr []) = v := by simp [jsOrV, ht]
  rw [hj]
  cases v with
  | arr a => exact absurd rfl (hna a)
  | undefV => simp [truthy] at ht
  | null => simp [truthy] at ht
  | bool b => rfl
  | num m => rfl
  | str s => rfl
  | obj o => rfl

theorem parseJSONRun_obj_arr (fs : List (String × JSVal)) (elems : List JSVal)
    (now : Nat → Nat) (today : Nat)
    (hl : (lookupField fs "events").getD .undefV = .arr elems) :
    parseJSONRun (.obj fs) now today =
      (match mapIdxEx (fun i e => validateEvent e (now i) i today) elems with
       | .ok vs =>
         .ok (vs, jsOrV ((lookupField fs "confidence").getD .undefV) (.num 75))
       | .error m => .error m) := by
  unfold parseJSONRun
  simp only [getField, Except_bind_ok, hl]
  have hj : jsOrV (.arr elems) (.arr []) = .arr elems := by simp [jsOrV, truthy]
  rw [hj]
  cases hm : mapIdxEx (fun i e => validateEvent e (now i) i today) elems with
  | ok vs => simp only [hm, Except_bind_ok, Except_pure]
  | error m => simp only [hm, Except_bind_error]

theorem parseJSONRun_prim_ok (p : JSVal) (now : Nat → Nat) (today : Nat)
    (h : match p with
         | .bool _ => True
         | .num _ => True
         | .str _ => True
         | .arr _ => True
         | _ => False) :
    parseJSONRun p now today = .ok ([], .num 75) := by
  cases p <;> first | rfl | exact h.elim

/-- Claim C10 (amended): a syntactically valid object reply with no
`events` key yields `success = true` with an empty events list, the
confidence defaulting to 75 when absent; and the fail-closed
`{success: false, events: [], confidence: 0}` outcome occurs exactly for
JSON syntax errors, a nullish top-level value, a truthy non-array
`events` value, or an `events` array containing an element whose
validation throws (a nullish element, or a `type` that is neither a
string nor nullish). -/
theorem c10_parse_response_fail_closed
    (parsed? : Option JSVal) (now : Nat → Nat) (today : Nat) :
    (∀ fs, parsed? = some (.obj fs) → lookupField fs "events" = none →
      (parseJSONResponse parsed? now today).success = true ∧
      (parseJSONResponse parsed? now today).events = [] ∧
      (lookupField fs "confidence" = none →
        (parseJSONResponse parsed? now today).confidence = .num 75)) ∧
    ((parseJSONResponse parsed? now today).success = false ↔
      jsonReplyFails parsed? = true) ∧
    ((parseJSONResponse parsed? now today).success = false →
      (parseJSONResponse parsed? now today).events = [] ∧
      (parseJSONResponse parsed? now today).confidence = .num 0) := by
  refine ⟨?_, ?_, ?_⟩
  · rintro fs rfl hev
    rw [parseJSONResponse, parseJSONRun_obj_no_events fs now today hev]
    refine ⟨rfl, rfl, ?_⟩
    intro hconf
    simp [hconf, jsOrV, truthy]
  · cases parsed? with
    | none => simp [parseJSONResponse, jsonReplyFails]
    | some p =>
      rw [parseJSONResponse]
      cases p with
      | undefV => rw [parseJSONRun_undef]; simp [jsonReplyFails]
      | null => rw [parseJSONRun_null]; simp [jsonReplyFails]
      | bool b => rw [parseJSONRun_prim_ok _ _ _ trivial]; simp [jsonReplyFails]
      | num m => rw [parseJSONRun_prim_ok _ _ _ trivial]; simp [jsonReplyFails]
      | str s => rw [parseJSONRun_prim_ok _ _ _ trivial]; simp [jsonReplyFails]
      | arr a => rw [parseJSONRun_prim_ok _ _ _ trivial]; simp [jsonReplyFails]
      | obj fs =>
        by_cases ht : truthy ((lookupField fs "events").getD .undefV) = true
        · cases hv : (lookupField fs "events").getD .undefV with
          | undefV => rw [hv] at ht; cases ht
          | null => rw [hv] at ht; cases ht
          | arr elems =>
            rw [parseJSONRun_obj_arr fs elems now today hv]
            cases hm : mapIdxEx (fun i e => validateEvent e (now i) i today) elems with
            | ok vs =>
              simp only [jsonReplyFails, hv, truthy, if_true]
              have hall := (mapIdx_validate_ok_iff now today elems 0).mp ⟨vs, hm⟩
              constructor
              · intro hfalse; cases hfalse
              · intro hany
                rw [List.any_eq_true] at hany
                obtain ⟨e, he, hthrows⟩ := hany
                rw [hall e he] at hthrows
                cases hthrows
            | error m =>
              simp only [jsonReplyFails, hv, truthy, if_true]
              constructor
              · intro _
                rw [List.any_eq_true]
                by_contra hnone
                push_neg at hnone
                have hforall : ∀ e ∈ elems, validateThrows e = false := by
                  intro e he
                  simpa using hnone e he
                obtain ⟨vs, hvs⟩ := (mapIdx_validate_ok_iff now today elems 0).mpr hforall
                rw [mapIdxEx] at hm
                rw [hvs] at hm
                cases hm
              · intro _; trivial
          | bool b =>
            rw [hv] at ht
            rw [parseJSONRun_obj_truthy_nonarr fs _ now today hv ht (by intro _ h; cases h)]
            simp [jsonReplyFails, hv, ht]
          | num m =>
            rw [hv] at ht
            rw [parseJSONRun_obj_truthy_nonarr fs _ now today hv ht (by intro _ h; cases h)]
            simp [jsonReplyFails, hv, ht]
          | str s =>
            rw [hv] at ht
            rw [parseJSONRun_obj_truthy_nonarr fs _ now today hv ht (by intro _ h; cases h)]
            simp [jsonReplyFails, hv, ht]
          | obj o =>
            rw [hv] at ht
            rw [parseJSONRun_obj_truthy_nonarr fs _ now today hv ht (by intro _ h; cases h)]
            simp [jsonReplyFails, hv, ht]
        · have htf : truthy ((lookupField fs "events").getD .undefV) = false := by
            simpa using ht
          rw [parseJSONRun_obj_falsy fs now today htf]
          simp [jsonReplyFails, htf]
  · cases parsed? with
    | none => intro _; exact ⟨rfl, rfl⟩
    | some p =>
      rw [parseJSONResponse]
      cases parseJSONRun p now today with
      | ok r => intro hfalse; cases hfalse
      | error m => intro _; exact ⟨rfl, rfl⟩

/-- Counterexample to C10 as stated: the reply parsed from
`{"events":[null]}` is syntactically valid JSON whose `events` value is
an array — not "an explicitly non-array `events` value" — yet
`parseJSONResponse` fail-closes, because reading a property of the null
element throws during validation. -/
theorem c10_counterexample :
    parseJSONResponse (some (.obj [("events", .arr [.null])])) (fun _ => 0) 0 =
      ⟨false, [], .num 0,
        ["JSON parsing failed: TypeError: Cannot read properties of null"]⟩ ∧
    lookupField [("events", JSVal.arr [JSVal.null])] "events" =
      some (.arr [.null]) :=
  ⟨rfl, rfl⟩

theorem validateEventType_eq_normalize (s : String) :
    validateEventType (.str s) = .ok (normalizeEventType s) := by
  unfold validateEventType normalizeEventType
  dsimp only
  by_cases hmem : validTypes.contains (jsToLower s) = true
  · rw [if_pos hmem]
    simp only [validTypes, List.contains_cons, List.contains_nil,
      Bool.or_eq_true, beq_iff_eq] at hmem
    rcases hmem with h | h | h | h | h | h <;>
      first
        | exact absurd h (by decide)
        | (rw [h]; rfl)
  · rw [if_neg hmem]
    split_ifs <;> rfl

/-- Claim C4 (amended): the validation pass of the AI parser defaults a
missing title to "Untitled Event" and resolves the type with logic
extensionally equal to the Structured Parser's substring fallback
(`normalizeEventType`), a missing value defaulting to "lecture"; but a
missing duration is recomputed from the event's original `time` value —
before the `"09:00 - 10:00"` time default is applied — so it does not in
general match the returned event's time range, and no 12-hour/range
normalization of §4.2 is applied to the time itself. -/
theorem c4_validation_defaults :
    (∀ s : String, validateEventType (.str s) = .ok (normalizeEventType s)) ∧
    validateEventType .undefV = .ok "lecture" ∧
    (∀ (fs : List (String × JSVal)) (n i t : Nat) (v : VEvent),
      validateEvent (.obj fs) n i t = .ok v →
      v.title = jsOrV ((lookupField fs "title").getD .undefV) (.str "Untitled Event") ∧
      validateEventType ((lookupField fs "type").getD .undefV) = .ok v.etype ∧
      v.duration = jsOrV ((lookupField fs "duration").getD .undefV)
        (.str (calculateDurationLLM ((lookupField fs "time").getD .undefV))) ∧
      v.time = jsOrV ((lookupField fs "time").getD .undefV) (.str "09:00 - 10:00")) := by
  refine ⟨validateEventType_eq_normalize, rfl, ?_⟩
  intro fs n i t v h
  unfold validateEvent at h
  simp only [getField, Except_bind_ok] at h
  cases hty : validateEventType ((lookupField fs "type").getD .undefV) with
  | error m =>
    rw [hty] at h
    simp [Except_bind_error] at h
  | ok ty =>
    rw [hty] at h
    simp only [Except_bind_ok, Except_pure, Except.ok.injEq] at h
    subst h
    exact ⟨rfl, rfl, rfl, rfl⟩

/-- Witness for C4 at a concrete input (an event providing only a
title): the type fallback agrees with the Structured Parser's and the
field defaults are as characterized. -/
theorem c4_witness :
    validateEventType (.str "Computer LAB session") =
      .ok (normalizeEventType "Computer LAB session") ∧
    validateEvent (.obj [("title", .str "DB")]) 5 0 20000 = .ok c4SampleV ∧
    c4SampleV.title =
      jsOrV ((lookupField [("title", JSVal.str "DB")] "title").getD .undefV)
        (.str "Untitled Event") ∧
    c4SampleV.duration =
      jsOrV ((lookupField [("title", JSVal.str "DB")] "duration").getD .undefV)
        (.str (calculateDurationLLM
          ((lookupField [("title", JSVal.str "DB")] "time").getD .undefV))) := by
  have h3 := c4_validation_defaults.2.2 [("title", .str "DB")] 5 0 20000 c4SampleV rfl
  exact ⟨c4_validation_defaults.1 "Computer LAB session", rfl, h3.1, h3.2.2.1⟩

/-- Counterexample to C4 as stated: for the valid reply
`{"events":[{"title":"Databases"}]}` the validated event's time range is
the default `"09:00 - 10:00"`, whose recomputed duration would be
`"1h"`, but the returned duration is `"1h 30m"` (computed from the
absent original time) — the duration rule is not applied to the event's
(final) time range, unlike §4.2 where duration is computed from the
normalized time. -/
theorem c4_counterexample :
    (parseJSONResponse (some (.obj [("events", .arr [.obj [("title", .str "Databases")]])]))
        (fun _ => 0) 20000).success = true ∧
    (parseJSONResponse (some (.obj [("events", .arr [.obj [("title", .str "Databases")]])]))
        (fun _ => 0) 20000).events.map (fun v => (v.time, v.duration)) =
      [(.str "09:00 - 10:00", .str "1h 30m")] ∧
    calculateDurationLLM (.str "09:00 - 10:00") = "1h" ∧
    calculateDurationLocal "09:00 - 10:00" = "1h" ∧
    ("1h 30m" : String) ≠ "1h" := by
  refine ⟨rfl, rfl, rfl, rfl, ?_⟩
  decide

theorem takeWhile_append_all (p : Char → Bool) :
    ∀ (l1 l2 : List Char), (∀ c ∈ l1, p c = true) →
    (l1 ++ l2).takeWhile p = l1 ++ l2.takeWhile p := by
  intro l1
  induction l1 with
  | nil => intro l2 _; simp
  | cons c cs ih =>
    intro l2 h
    rw [List.cons_append, List.takeWhile_cons, if_pos (h c (List.mem_cons_self c cs))]
    rw [ih l2 (fun d hd => h d (List.mem_cons_of_mem c hd))]
    rfl

theorem lastDashSeg_append (pre suf : List Char) (h : ∀ c ∈ suf, c ≠ '-') :
    lastDashSeg (pre ++ '-' :: suf) = suf := by
  unfold lastDashSeg
  rw [List.reverse_append, List.reverse_cons]
  rw [List.append_assoc]
  rw [takeWhile_append_all _ suf.reverse _ ?hall]
  case hall =>
    intro c hc
    rw [List.mem_reverse] at hc
    simpa using h c hc
  · rw [List.singleton_append, List.takeWhile_cons]
    simp

theorem genId_inj (pre : List Char) {t1 t2 i j : Nat}
    (h : pre ++ (natRepr t1 ++ ('-' :: natRepr i)) =
         pre ++ (natRepr t2 ++ ('-' :: natRepr j))) : i = j := by
  have h2 : (pre ++ natRepr t1) ++ '-' :: natRepr i =
      (pre ++ natRepr t2) ++ '-' :: natRepr j := by
    simpa [List.append_assoc] using h
  have h3 := congrArg lastDashSeg h2
  rw [lastDashSeg_append _ _ (natRepr_no_dash i),
    lastDashSeg_append _ _ (natRepr_no_dash j)] at h3
  exact natRepr_inj h3

theorem localGenId_inj {t1 t2 i j : Nat}
    (h : localGenId t1 i = localGenId t2 j) : i = j := by
  have hd := congrArg String.data h
  unfold localGenId at hd
  simp only [List.append_assoc, List.singleton_append] at hd
  exact genId_inj _ hd

theorem llmGenId_inj {t1 t2 i j : Nat}
    (h : llmGenId t1 i = llmGenId t2 j) : i = j := by
  have hd := congrArg String.data h
  unfold llmGenId at hd
  simp only [List.append_assoc, List.singleton_append] at hd
  exact genId_inj _ hd

theorem mapRowToEvent_id (row : List (String × JSVal)) (i now today : Nat)
    (e : ParsedTimetableEvent) (h : mapRowToEvent row i now today = some e) :
    e.id = localGenId now i := by
  unfold mapRowToEvent at h
  cases hfind : findValueByKeys row titleKeys with
  | none => rw [hfind] at h; cases h
  | some t =>
    rw [hfind] at h
    simp only [Option.some.injEq] at h
    subst h
    rfl

theorem convertRows_pairwise_aux (now : Nat → Nat) (today : Nat) :
    ∀ (rows : List (List (String × JSVal))) (k : Nat),
    ((rows.enumFrom k).filterMap
      (fun p => mapRowToEvent p.2 p.1 (now p.1) today)).Pairwise
      (fun a b => a.id ≠ b.id) := by
  intro rows
  induction rows with
  | nil => intro k; simp
  | cons r rs ih =>
    intro k
    show ((((k, r) :: rs.enumFrom (k + 1))).filterMap
      (fun p => mapRowToEvent p.2 p.1 (now p.1) today)).Pairwise _
    rw [List.filterMap_cons]
    cases hm : mapRowToEvent r k (now k) today with
    | none => simpa [hm] using ih (k + 1)
    | some e =>
      simp only [hm]
      refine List.Pairwise.cons ?_ (ih (k + 1))
      intro b hb
      rw [List.mem_filterMap] at hb
      obtain ⟨p, hpmem, hpb⟩ := hb
      obtain ⟨j, row⟩ := p
      have hj : k + 1 ≤ j :=
        (List.mk_mem_enumFrom_iff_le_and_getElem?_sub.mp hpmem).1
      have hidb : b.id = localGenId (now j) j :=
        mapRowToEvent_id row j (now j) today b hpb
      have hide : e.id = localGenId (now k) k :=
        mapRowToEvent_id r k (now k) today e hm
      rw [hide, hidb]
      intro heq
      have := localGenId_inj heq
      omega

theorem validateEvent_id (e : JSVal) (n i t : Nat) (v : VEvent)
    (h : validateEvent e n i t = .ok v) (hf : idFalsy e = true) :
    v.id = .str (llmGenId n i) := by
  cases e with
  | undefV => simp [validateEvent, getField, Except_bind_error] at h
  | null => simp [validateEvent, getField, Except_bind_error] at h
  | obj fs =>
    unfold validateEvent at h
    simp only [getField, Except_bind_ok] at h
    cases hty : validateEventType ((lookupField fs "type").getD .undefV) with
    | error m => rw [hty] at h; simp [Except_bind_error] at h
    | ok ty =>
      rw [hty] at h
      simp only [Except_bind_ok, Except_pure, Except.ok.injEq] at h
      subst h
      have hfalse : truthy ((lookupField fs "id").getD .undefV) = false := by
        simpa [idFalsy] using hf
      show jsOrV ((lookupField fs "id").getD .undefV) (.str (llmGenId n i)) = _
      simp [jsOrV, hfalse]
  | bool b =>
    simp only [validateEvent, getField, validateEventType, Except_bind_ok,
      Except_pure, Except.ok.injEq] at h
    subst h
    rfl
  | num m =>
    simp only [validateEvent, getField, validateEventType, Except_bind_ok,
      Except_pure, Except.ok.injEq] at h
    subst h
    rfl
  | str s =>
    simp only [validateEvent, getField, validateEventType, Except_bind_ok,
      Except_pure, Except.ok.injEq] at h
    subst h
    rfl
  | arr a =>
    simp only [validateEvent, getField, validateEventType, Except_bind_ok,
      Except_pure, Except.ok.injEq] at h
    subst h
    rfl

theorem mapIdx_validate_ids (now : Nat → Nat) (today : Nat) :
    ∀ (l : List JSVal) (k : Nat) (vs : List VEvent),
    (∀ e ∈ l, idFalsy e = true) →
    mapIdxExGo (fun j e => validateEvent e (now j) j today) k l = .ok vs →
    ∀ w ∈ vs, ∃ j, k ≤ j ∧ w.id = .str (llmGenId (now j) j) := by
  intro l
  induction l with
  | nil =>
    intro k vs _ h w hw
    rw [mapIdxExGo] at h
    cases h
    cases hw
  | cons a as ih =>
    intro k vs hall h w hw
    rw [mapIdxExGo] at h
    cases ha : validateEvent a (now k) k today with
    | error m => rw [ha] at h; simp [Except_bind_error] at h
    | ok v =>
      rw [ha] at h
      cases hrec : mapIdxExGo (fun j e => validateEvent e (now j) j today) (k + 1) as with
      | error m => rw [hrec] at h; simp [Except_bind_ok, Except_bind_error] at h
      | ok ws =>
        rw [hrec] at h
        simp only [Except_bind_ok, Except_pure, Except.ok.injEq] at h
        subst h
        rcases List.mem_cons.mp hw with rfl | hmem
        · exact ⟨k, Nat.le_refl k,
            validateEvent_id a (now k) k today w ha (hall a (List.mem_cons_self a as))⟩
        · obtain ⟨j, hj, hid⟩ := ih (k + 1) ws
            (fun e he => hall e (List.mem_cons_of_mem a he)) hrec w hmem
          exact ⟨j, by omega, hid⟩

theorem mapIdx_validate_ids_pairwise (now : Nat → Nat) (today : Nat) :
    ∀ (l : List JSVal) (k : Nat) (vs : List VEvent),
    (∀ e ∈ l, idFalsy e = true) →
    mapIdxExGo (fun j e => validateEvent e (now j) j today) k l = .ok vs →
    vs.Pairwise (fun a b => a.id ≠ b.id) := by
  intro l
  induction l with
  | nil =>
    intro k vs _ h
    rw [mapIdxExGo] at h
    cases h
    exact List.Pairwise.nil
  | cons a as ih =>
    intro k vs hall h
    rw [mapIdxExGo] at h
    cases ha : validateEvent a (now k) k today with
    | error m => rw [ha] at h; simp [Except_bind_error] at h
    | ok v =>
      rw [ha] at h
      cases hrec : mapIdxExGo (fun j e => validateEvent e (now j) j today) (k + 1) as with
      | error m => rw [hrec] at h; simp [Except_bind_ok, Except_bind_error] at h
      | ok ws =>
        rw [hrec] at h
        simp only [Except_bind_ok, Except_pure, Except.ok.injEq] at h
        subst h
        refine List.Pairwise.cons ?_
          (ih (k + 1) ws (fun e he => hall e (List.mem_cons_of_mem a he)) hrec)
        intro w hw
        obtain ⟨j, hj, hid⟩ := mapIdx_validate_ids now today as (k + 1) ws
          (fun e he => hall e (List.mem_cons_of_mem a he)) hrec w hw
        rw [validateEvent_id a (now k) k today v ha (hall a (List.mem_cons_self a as)),
          hid]
        intro heq
        have heq2 : llmGenId (now k) k = llmGenId (now j) j := by
          simpa using heq
        have := llmGenId_inj heq2
        omega

/-- Claim C9 (amended): the Structured Parser's conversion gives every
produced event an id that is unique within the parse call, whatever the
per-row `Date.now()` values; the AI parser's validated events have
pairwise distinct ids whenever the model supplies no (truthy) `id`
values of its own — model-supplied ids are kept verbatim and may
collide. -/
theorem c9_ids_unique_within_parse :
    (∀ (rows : List (List (String × JSVal))) (now : Nat → Nat) (today : Nat),
      (convertRowsToEvents rows now today).Pairwise (fun a b => a.id ≠ b.id)) ∧
    (∀ (fs : List (String × JSVal)) (elems : List JSVal) (now : Nat → Nat)
      (today : Nat),
      (lookupField fs "events").getD .undefV = .arr elems →
      (∀ e ∈ elems, idFalsy e = true) →
      (parseJSONResponse (some (.obj fs)) now today).events.Pairwise
        (fun a b => a.id ≠ b.id)) := by
  constructor
  · intro rows now today
    exact convertRows_pairwise_aux now today rows 0
  · intro fs elems now today hv hall
    rw [parseJSONResponse, parseJSONRun_obj_arr fs elems now today hv]
    cases hm : mapIdxEx (fun i e => validateEvent e (now i) i today) elems with
    | ok vs =>
      rw [mapIdxEx] at hm
      exact mapIdx_validate_ids_pairwise now today elems 0 vs hall hm
    | error m => exact List.Pairwise.nil

/-- Witness for C9 at concrete inputs: two structured rows, and an AI
reply with two id-less events, both yield pairwise distinct ids. -/
theorem c9_witness :
    (convertRowsToEvents [[("course", .str "A")], [("course", .str "B")]]
      (fun _ => 7) 20000).Pairwise (fun a b => a.id ≠ b.id) ∧
    (parseJSONResponse (some (.obj [("events",
        .arr [.obj [("title", .str "X")], .obj [("title", .str "Y")]])]))
      (fun _ => 3) 20000).events.Pairwise (fun a b => a.id ≠ b.id) :=
  ⟨c9_ids_unique_within_parse.1 [[("course", .str "A")], [("course", .str "B")]]
      (fun _ => 7) 20000,
    c9_ids_unique_within_parse.2 [("events",
        .arr [.obj [("title", .str "X")], .obj [("title", .str "Y")]])]
      [.obj [("title", .str "X")], .obj [("title", .str "Y")]]
      (fun _ => 3) 20000 rfl (by decide)⟩

/-- Counterexample to C9 as stated: a valid AI reply that supplies the
same id `"a"` for two events is validated into two events with equal
ids — the AI parser keeps model-supplied ids verbatim, so ids are not
always unique within its parse result. -/
theorem c9_counterexample :
    (parseJSONResponse (some (.obj [("events", .arr
        [.obj [("id", .str "a"), ("title", .str "X")],
         .obj [("id", .str "a"), ("title", .str "Y")]])])) (fun _ => 0) 0).success
      = true ∧
    (parseJSONResponse (some (.obj [("events", .arr
        [.obj [("id", .str "a"), ("title", .str "X")],
         .obj [("id", .str "a"), ("title", .str "Y")]])])) (fun _ => 0) 0).events.map
      (fun v => v.id) = [.str "a", .str "a"] ∧
    ¬ (parseJSONResponse (some (.obj [("events", .arr
        [.obj [("id", .str "a"), ("title", .str "X")],
         .obj [("id", .str "a"), ("title", .str "Y")]])])) (fun _ => 0) 0).events.Pairwise
      (fun a b => a.id ≠ b.id) := by
  refine ⟨rfl, rfl, ?_⟩
  intro hp
  have hmap : ((parseJSONResponse (some (.obj [("events", .arr
      [.obj [("id", .str "a"), ("title", .str "X")],
       .obj [("id", .str "a"), ("title", .str "Y")]])])) (fun _ => 0) 0).events.map
      (fun v => v.id)).Pairwise (fun a b => a ≠ b) :=
    List.pairwise_map.mpr hp
  rw [show ((parseJSONResponse (some (.obj [("events", .arr
      [.obj [("id", .str "a"), ("title", .str "X")],
       .obj [("id", .str "a"), ("title", .str "Y")]])])) (fun _ => 0) 0).events.map
      (fun v => v.id)) = [.str "a", .str "a"] from rfl] at hmap
  rcases hmap with _ | ⟨h1, _⟩
  exact h1 (.str "a") (List.mem_cons_self _ _) rfl

/-- Witness for C10 at concrete inputs: an object reply without an
`events` key succeeds with no events and confidence 75, and a
syntax-error reply is fail-closed. -/
theorem c10_witness :
    (parseJSONResponse (some (.obj [("note", .str "hi")])) (fun _ => 0) 0).success
      = true ∧
    (parseJSONResponse (some (.obj [("note", .str "hi")])) (fun _ => 0) 0).events
      = [] ∧
    (parseJSONResponse (some (.obj [("note", .str "hi")])) (fun _ => 0) 0).confidence
      = .num 75 ∧
    ((parseJSONResponse none (fun _ => 0) 0).success = false ↔
      jsonReplyFails none = true) := by
  have h := c10_parse_response_fail_closed (some (.obj [("note", .str "hi")]))
    (fun _ => 0) 0
  have h2 := c10_parse_response_fail_closed none (fun _ => 0) 0
  have ha := h.1 [("note", .str "hi")] rfl rfl
  exact ⟨ha.1, ha.2.1, ha.2.2 rfl, h2.2.1⟩

theorem getNextWeekdayLocal_eq (today dow : Nat) :
    getNextWeekdayLocal today dow = renderDateOfDay (today + nextDelta today dow) := rfl

/-- Claim C5: for every row (with a resolvable title) whose date value
names a weekday, the Structured Parser's normalized date is the calendar
date `nextDelta` days ahead of today, where: the target weekday matches
the weekday found in the value, the delta is between 1 and 7 (strictly
in the future), and a match on today's own weekday resolves to the same
weekday next week (delta exactly 7). -/
theorem c5_weekday_resolves_strictly_future :
    (∀ (today dow : Nat), dow < 7 →
      1 ≤ nextDelta today dow ∧ nextDelta today dow ≤ 7 ∧
      jsGetDay (today + nextDelta today dow) = dow ∧
      (jsGetDay today = dow → nextDelta today dow = 7)) ∧
    (∀ (row : List (String × JSVal)) (i now today : Nat)
      (e : ParsedTimetableEvent) (ds : String) (k : Nat),
      mapRowToEvent row i now today = some e →
      findValueByKeys row dateKeys = some ds →
      findWeekdayIndex ds = some k →
      k < 7 ∧ e.date = renderDateOfDay (today + nextDelta today k)) := by
  constructor
  · intro today dow hdow
    unfold nextDelta jsGetDay
    dsimp only
    split_ifs with h0 <;> refine ⟨?_, ?_, ?_, ?_⟩ <;> omega
  · intro row i now today e ds k hmap hds hk
    have hk7 : k < 7 :=
      lt_of_lt_of_eq (List.findIdx?_eq_some_iff_findIdx_eq.mp hk).1 (by rfl)
    refine ⟨hk7, ?_⟩
    unfold mapRowToEvent at hmap
    cases ht : findValueByKeys row titleKeys with
    | none => rw [ht] at hmap; cases hmap
    | some ttl =>
      rw [ht] at hmap
      simp only [Option.some.injEq] at hmap
      subst hmap
      show normalizeDate today ((findValueByKeys row dateKeys).getD _) = _
      rw [hds]
      show normalizeDate today ds = _
      unfold normalizeDate
      rw [hk]
      exact getNextWeekdayLocal_eq today k

/-- Witness for C5 at a concrete input: a row dated "Monday" parsed on a
Friday (epoch day 20000, 2024-10-04) resolves to the following Monday,
2024-10-07, three days ahead. -/
theorem c5_witness :
    (1 ≤ nextDelta 20000 1 ∧ nextDelta 20000 1 ≤ 7 ∧
      jsGetDay (20000 + nextDelta 20000 1) = 1 ∧
      (jsGetDay 20000 = 1 → nextDelta 20000 1 = 7)) ∧
    ((mapRowToEvent [("course", .str "Algo"), ("day", .str "Monday")] 0 9 20000).map
      (fun e => e.date) =
      some (renderDateOfDay (20000 + nextDelta 20000 1))) ∧
    renderDateOfDay (20000 + nextDelta 20000 1) = "2024-10-07" := by
  refine ⟨c5_weekday_resolves_strictly_future.1 20000 1 (by decide), ?_, rfl⟩
  have h := c5_weekday_resolves_strictly_future.2
    [("course", .str "Algo"), ("day", .str "Monday")] 0 9 20000
    ((mapRowToEvent [("course", .str "Algo"), ("day", .str "Monday")] 0 9 20000).getD
      sampleEvent)
    "Monday" 1 rfl rfl rfl
  rw [show (mapRowToEvent [("course", .str "Algo"), ("day", .str "Monday")] 0 9 20000)
      = some ((mapRowToEvent [("course", .str "Algo"), ("day", .str "Monday")]
        0 9 20000).getD sampleEvent) from rfl]
  rw [Option.map_some']
  rw [h.2]

theorem isDigit_not_special {c : Char} (h : c.isDigit = true) :
    isWsp c = false ∧ c ≠ '-' ∧ c ≠ '+' ∧ c ≠ ':' ∧ c ≠ ' ' ∧ c ≠ 'T' := by
  refine ⟨?_, ?_, ?_, ?_, ?_, ?_⟩
  · unfold isWsp
    have h1 : c ≠ ' ' := fun he => by subst he; exact absurd h (by decide)
    have h2 : c ≠ '\t' := fun he => by subst he; exact absurd h (by decide)
    have h3 : c ≠ '\n' := fun he => by subst he; exact absurd h (by decide)
    have h4 : c ≠ '\r' := fun he => by subst he; exact absurd h (by decide)
    simp [h1, h2, h3, h4]
  all_goals exact fun he => by subst he; exact absurd h (by decide)

theorem dropWhile_eq_self_of {p : Char → Bool} :
    ∀ {l : List Char}, (∀ c ∈ l, p c = false) → l.dropWhile p = l := by
  intro l h
  cases l with
  | nil => rfl
  | cons c cs =>
    rw [List.dropWhile_cons, h c (List.mem_cons_self c cs)]
    simp

theorem trimC_eq_self {l : List Char} (h : ∀ c ∈ l, isWsp c = false) :
    trimC l = l := by
  unfold trimC trimL trimR
  rw [dropWhile_eq_self_of h]
  rw [dropWhile_eq_self_of (fun c hc => h c (List.mem_reverse.mp hc))]
  exact List.reverse_reverse l

theorem containsL_false {h0 : Char} {sub : List Char} :
    ∀ {l : List Char}, (∀ c ∈ l, c ≠ h0) → containsL l (h0 :: sub) = false := by
  intro l
  induction l with
  | nil => intro _; rfl
  | cons c cs ih =>
    intro h
    unfold containsL
    rw [ih (fun d hd => h d (List.mem_cons_of_mem c hd))]
    unfold startsW
    have : (h0 = c) = False := by
      simp only [eq_iff_iff, iff_false]
      exact fun he => h c (List.mem_cons_self c cs) he.symm
    simp [this]

theorem toNumber_digits {l : List Char} (hne : l ≠ []) (hdig : allDigits l = true) :
    toNumber l = some ((digitsVal l : Int)) := by
  unfold toNumber
  have hall : ∀ c ∈ l, c.isDigit = true := by
    intro c hc
    exact List.all_eq_true.mp hdig c hc
  rw [trimC_eq_self (fun c hc => (isDigit_not_special (hall c hc)).1)]
  cases l with
  | nil => exact absurd rfl hne
  | cons c rest =>
    have hc := isDigit_not_special (hall c (List.mem_cons_self c rest))
    dsimp only
    rw [if_neg hc.2.1, if_neg hc.2.2.1, if_pos hdig]

theorem natRepr_single {n : Nat} (h : n < 10) : natRepr n = [decChar n] := by
  unfold natRepr
  rw [natReprAux, if_pos h]

theorem natRepr_double {n : Nat} (h10 : 10 ≤ n) (h100 : n < 100) :
    natRepr n = [decChar (n / 10), decChar (n % 10)] := by
  have hne : n ≠ 0 := by omega
  rw [natRepr_eq_digits hne]
  have hq1 : 0 < n / 10 := by omega
  have hq2 : n / 10 < 10 := by omega
  rw [Nat.digits_def' (by norm_num : (1 : Nat) < 10) (by omega)]
  rw [Nat.digits_def' (by norm_num : (1 : Nat) < 10) hq1]
  rw [Nat.mod_eq_of_lt hq2, Nat.div_eq_of_lt hq2]
  simp

theorem pad2_eq_isoPad2 {n : Nat} (h : n < 100) : pad2 n = isoPad2 n := by
  by_cases h10 : n < 10
  · unfold pad2 padStart2 isoPad2
    rw [natRepr_single h10]
    rw [Nat.div_eq_of_lt h10, Nat.mod_eq_of_lt h10]
    rfl
  · unfold pad2 padStart2 isoPad2
    rw [natRepr_double (by omega) h]
    rfl

theorem digitsVal_two (a b : Char) :
    digitsVal [a, b] = 10 * digitVal a + digitVal b := by
  unfold digitsVal
  simp [List.foldl]
  ring

theorem toNumber_isoPad2 {n : Nat} (h : n < 100) :
    toNumber (isoPad2 n) = some ((n : Int)) := by
  have h1 : n / 10 < 10 := by omega
  have h2 : n % 10 < 10 := by omega
  rw [toNumber_digits (by simp [isoPad2]) ?hdig]
  case hdig =>
    simp [isoPad2, allDigits, decChar_isDigit h1, decChar_isDigit h2]
  rw [show isoPad2 n = [decChar (n / 10), decChar (n % 10)] from rfl]
  rw [digitsVal_two, digitVal_decChar h1, digitVal_decChar h2]
  congr 1
  omega

theorem startsW_self_append : ∀ (p q : List Char), startsW p (p ++ q) = true := by
  intro p
  induction p with
  | nil => intro q; rfl
  | cons a as ih => intro q; simp [startsW, ih]

theorem splitGo_no_sep (s0 : Char) (sr : List Char) :
    ∀ (fuel : Nat) (acc l : List Char), l.length ≤ fuel → (∀ c ∈ l, c ≠ s0) →
    splitGo s0 sr fuel acc l = [acc.reverse ++ l] := by
  intro fuel
  induction fuel with
  | zero =>
    intro acc l hl h
    cases l with
    | nil => rw [splitGo]; simp
    | cons c cs => simp at hl
  | succ f ih =>
    intro acc l hl h
    cases l with
    | nil => rw [splitGo]; simp
    | cons c cs =>
      rw [splitGo]
      have hs : startsW (s0 :: sr) (c :: cs) = false := by
        have hne : ¬(s0 = c) := fun he => h c (List.mem_cons_self c cs) he.symm
        simp [startsW, hne]
      rw [hs]
      simp only [Bool.false_eq_true, if_false]
      rw [ih (c :: acc) cs (by simp at hl; omega)
        (fun d hd => h d (List.mem_cons_of_mem c hd))]
      simp

theorem splitGo_mid (s0 : Char) (sr : List Char) :
    ∀ (x : List Char) (fuel : Nat) (acc y : List Char),
    x.length + sr.length + 1 + y.length ≤ fuel →
    (∀ c ∈ x, c ≠ s0) → (∀ c ∈ y, c ≠ s0) →
    splitGo s0 sr fuel acc (x ++ (s0 :: sr) ++ y) = [acc.reverse ++ x, y] := by
  intro x
  induction x with
  | nil =>
    intro fuel acc y hfuel _ hy
    cases fuel with
    | zero => simp at hfuel
    | succ f =>
      simp only [List.nil_append, List.cons_append]
      rw [splitGo]
      have hsw := startsW_self_append (s0 :: sr) y
      simp only [List.cons_append] at hsw
      rw [hsw]
      simp only [if_true]
      rw [show (sr ++ y).drop sr.length = y from List.drop_left sr y]
      rw [splitGo_no_sep s0 sr f [] y (by simp at hfuel; omega) hy]
      simp
  | cons a as ih =>
    intro fuel acc y hfuel hx hy
    cases fuel with
    | zero => simp at hfuel
    | succ f =>
      simp only [List.cons_append]
      rw [splitGo]
      have hs : startsW (s0 :: sr) (a :: (as ++ s0 :: sr ++ y)) = false := by
        have hne : ¬(s0 = a) := fun he => hx a (List.mem_cons_self a as) he.symm
        simp [startsW, hne]
      rw [hs]
      simp only [Bool.false_eq_true, if_false]
      rw [ih f (a :: acc) y (by simp at hfuel ⊢; omega)
        (fun d hd => hx d (List.mem_cons_of_mem a hd)) hy]
      simp

theorem jsSplit_pair (s0 : Char) (sr x y : List Char)
    (hx : ∀ c ∈ x, c ≠ s0) (hy : ∀ c ∈ y, c ≠ s0) :
    jsSplit ⟨s0 :: sr⟩ ⟨x ++ (s0 :: sr) ++ y⟩ = [⟨x⟩, ⟨y⟩] := by
  unfold jsSplit
  dsimp only
  rw [splitGo_mid s0 sr x _ [] y ?_ hx hy]
  · simp
  · simp [List.length_append]
    omega

theorem jsSplit_single (s0 : Char) (sr l : List Char) (h : ∀ c ∈ l, c ≠ s0) :
    jsSplit ⟨s0 :: sr⟩ ⟨l⟩ = [⟨l⟩] := by
  unfold jsSplit
  dsimp only
  rw [splitGo_no_sep s0 sr l.length [] l (Nat.le_refl _) h]
  simp

theorem decChar_ne_letters {d : Nat} (h : d < 10) :
    decChar d ≠ 'A' ∧ decChar d ≠ 'P' ∧ decChar d ≠ '+' := by
  interval_cases d <;> decide

theorem clockStr_char_facts (h m : Nat) (hh : h < 100) (hm : m < 100) :
    ∀ c ∈ (clockStr h m).data,
      isWsp c = false ∧ c ≠ 'A' ∧ c ≠ 'P' ∧ c ≠ ' ' ∧ c ≠ ':' ∨ c = ':' := by
  intro c hc
  have hq1 : h / 10 < 10 := by omega
  have hq2 : h % 10 < 10 := by omega
  have hq3 : m / 10 < 10 := by omega
  have hq4 : m % 10 < 10 := by omega
  simp only [clockStr, isoPad2, List.mem_append, List.mem_cons,
    List.mem_singleton, List.not_mem_nil] at hc
  rcases hc with (rfl | rfl | h') | rfl | rfl | rfl | h'
  · exact Or.inl ⟨(decChar_ne hq1).2.2.2.2, (decChar_ne_letters hq1).1,
      (decChar_ne_letters hq1).2.1, (decChar_ne hq1).2.1, (decChar_ne hq1).2.2.1⟩
  · exact Or.inl ⟨(decChar_ne hq2).2.2.2.2, (decChar_ne_letters hq2).1,
      (decChar_ne_letters hq2).2.1, (decChar_ne hq2).2.1, (decChar_ne hq2).2.2.1⟩
  · cases h'
  · exact Or.inr rfl
  · exact Or.inl ⟨(decChar_ne hq3).2.2.2.2, (decChar_ne_letters hq3).1,
      (decChar_ne_letters hq3).2.1, (decChar_ne hq3).2.1, (decChar_ne hq3).2.2.1⟩
  · exact Or.inl ⟨(decChar_ne hq4).2.2.2.2, (decChar_ne_letters hq4).1,
      (decChar_ne_letters hq4).2.1, (decChar_ne hq4).2.1, (decChar_ne hq4).2.2.1⟩
  · cases h'

theorem addMinutes_clock (h m : Nat) (hh : h < 100) (hm : m < 100) :
    addMinutes (clockStr h m) 90 =
      clockStr (((h * 60 + m + 90) / 60) % 24) ((h * 60 + m + 90) % 60) := by
  unfold addMinutes
  have hsplit : jsSplit ":" (clockStr h m) = [⟨isoPad2 h⟩, ⟨isoPad2 m⟩] := by
    rw [show (":" : String) = (⟨[':']⟩ : String) from rfl]
    rw [show clockStr h m = (⟨isoPad2 h ++ (':' :: []) ++ isoPad2 m⟩ : String) from rfl]
    refine jsSplit_pair ':' [] (isoPad2 h) (isoPad2 m) ?_ ?_
    · intro c hc
      simp only [isoPad2, List.mem_cons, List.not_mem_nil, or_false] at hc
      rcases hc with rfl | rfl
      · exact (decChar_ne (by omega : h / 10 < 10)).2.2.1
      · exact (decChar_ne (by omega : h % 10 < 10)).2.2.1
    · intro c hc
      simp only [isoPad2, List.mem_cons, List.not_mem_nil, or_false] at hc
      rcases hc with rfl | rfl
      · exact (decChar_ne (by omega : m / 10 < 10)).2.2.1
      · exact (decChar_ne (by omega : m % 10 < 10)).2.2.1
  rw [hsplit]
  dsimp only [List.get?, Option.bind]
  rw [toNumber_isoPad2 hh, toNumber_isoPad2 hm]
  dsimp only
  have hcast : ((h : Int) * 60 + (m : Int) + 90) = ((h * 60 + m + 90 : Nat) : Int) := by
    push_cast
    ring
  have e1 : ((((h : Int) * 60 + (m : Int) + 90).ediv 60).emod 24).toNat =
      ((h * 60 + m + 90) / 60) % 24 := by rw [hcast]; rfl
  have e2 : (((h : Int) * 60 + (m : Int) + 90).emod 60).toNat =
      (h * 60 + m + 90) % 60 := by rw [hcast]; rfl
  rw [e1, e2]
  rw [pad2_eq_isoPad2 (by omega : ((h * 60 + m + 90) / 60) % 24 < 100),
    pad2_eq_isoPad2 (by omega : (h * 60 + m + 90) % 60 < 100)]
  rfl

theorem normalizeTime_bare (h m : Nat) (hh : h < 100) (hm : m < 100) :
    normalizeTime (clockStr h m) =
      clockStr h m ++ " - " ++
        clockStr (((h * 60 + m + 90) / 60) % 24) ((h * 60 + m + 90) % 60) := by
  have hfacts := clockStr_char_facts h m hh hm
  have htrim : jsTrim (clockStr h m) = clockStr h m := by
    show (⟨trimC (clockStr h m).data⟩ : String) = clockStr h m
    rw [trimC_eq_self ?_]
    intro c hc
    rcases hfacts c hc with ⟨h1, _⟩ | rfl
    · exact h1
    · decide
  have hAM : jsIncludes (clockStr h m) "AM" = false := by
    show containsL (clockStr h m).data ('A' :: ['M']) = false
    refine containsL_false ?_
    intro c hc
    rcases hfacts c hc with ⟨_, h2, _⟩ | rfl
    · exact h2
    · decide
  have hPM : jsIncludes (clockStr h m) "PM" = false := by
    show containsL (clockStr h m).data ('P' :: ['M']) = false
    refine containsL_false ?_
    intro c hc
    rcases hfacts c hc with ⟨_, _, h3, _⟩ | rfl
    · exact h3
    · decide
  have hdash : jsIncludes (clockStr h m) " - " = false := by
    show containsL (clockStr h m).data (' ' :: ['-', ' ']) = false
    refine containsL_false ?_
    intro c hc
    rcases hfacts c hc with ⟨_, _, _, h4, _⟩ | rfl
    · exact h4
    · decide
  unfold normalizeTime
  rw [htrim]
  simp only [hAM, hPM, hdash, Bool.false_or, Bool.false_eq_true, if_false,
    Bool.not_false, if_true]
  rw [addMinutes_clock h m hh hm]

/-- Claim C6 (amended): for every bare 24-hour start time (no range
separator, no meridiem markers), `normalizeTime` synthesizes an end
time exactly 90 minutes after the start (modulo the day); and for every
row with a resolvable title and no time field, the normalized event's
time is the default range `"09:00 - 10:30"` (whose end is start + 90
minutes) while its duration is the row's duration column when one
resolves, defaulting to `"1h 30m"` only when none does. -/
theorem c6_default_duration_policy :
    (∀ (h m : Nat), h < 100 → m < 100 →
      normalizeTime (clockStr h m) =
        clockStr h m ++ " - " ++
          clockStr (((h * 60 + m + 90) / 60) % 24) ((h * 60 + m + 90) % 60)) ∧
    (∀ (row : List (String × JSVal)) (i now today : Nat)
      (e : ParsedTimetableEvent),
      mapRowToEvent row i now today = some e →
      findValueByKeys row timeKeys = none →
      e.time = "09:00 - 10:30" ∧
      e.duration = (findValueByKeys row durationKeys).getD "1h 30m") := by
  constructor
  · intro h m hh hm
    exact normalizeTime_bare h m hh hm
  · intro row i now today e hmap htime
    unfold mapRowToEvent at hmap
    cases ht : findValueByKeys row titleKeys with
    | none => rw [ht] at hmap; cases hmap
    | some ttl =>
      rw [ht] at hmap
      simp only [Option.some.injEq] at hmap
      subst hmap
      constructor
      · show normalizeTime ((findValueByKeys row timeKeys).getD _) = _
        rw [htime]
        rfl
      · show (findValueByKeys row durationKeys).getD
          (calculateDurationLocal
            (normalizeTime ((findValueByKeys row timeKeys).getD _))) = _
        rw [htime]
        rfl

theorem c6_witness :
    (normalizeTime (clockStr 23 0) =
      clockStr 23 0 ++ " - " ++
        clockStr (((23 * 60 + 0 + 90) / 60) % 24) ((23 * 60 + 0 + 90) % 60)) ∧
    normalizeTime (clockStr 23 0) = "23:00 - 00:30" ∧
    ((mapRowToEvent [("course", .str "Algo")] 0 9 20000).map
      (fun e => (e.time, e.duration)) = some ("09:00 - 10:30", "1h 30m")) := by
  refine ⟨c6_default_duration_policy.1 23 0 (by decide) (by decide), rfl, ?_⟩
  have h := c6_default_duration_policy.2 [("course", .str "Algo")] 0 9 20000
    ((mapRowToEvent [("course", .str "Algo")] 0 9 20000).getD sampleEvent) rfl rfl
  rw [show (mapRowToEvent [("course", .str "Algo")] 0 9 20000)
      = some ((mapRowToEvent [("course", .str "Algo")] 0 9 20000).getD sampleEvent)
    from rfl]
  rw [Option.map_some']
  rw [h.1, h.2]
  rfl

/-- A row with no time field but a duration column: the event's duration
is the column value `"45m"`, not the `"1h 30m"` the spec promises for
all rows lacking a time field. -/
theorem c6_counterexample :
    findValueByKeys [("course", .str "X"), ("duration", .str "45m")] timeKeys
      = none ∧
    ((mapRowToEvent [("course", .str "X"), ("duration", .str "45m")] 0 9 20000).map
      (fun e => e.duration) = some "45m") ∧
    "45m" ≠ "1h 30m" := by
  refine ⟨rfl, rfl, by decide⟩

theorem meridiemAdjust_eq_spec (h : Nat) (pm : Bool) :
    meridiemAdjust h pm = spec24Hour h pm := by
  unfold meridiemAdjust spec24Hour
  cases pm <;> by_cases h12 : h = 12 <;> simp [h12]

theorem matchTail_nomin (sp pm c1 c2 : Bool) :
    matchTail ((if sp then [' '] else []) ++ meridiemMarker pm c1 c2) =
      some ("00", pm, []) := by
  cases sp <;> cases pm <;> cases c1 <;> cases c2 <;> rfl

theorem matchSpacesMeridiem_spmk (sp pm c1 c2 : Bool) :
    matchSpacesMeridiem ((if sp then [' '] else []) ++ meridiemMarker pm c1 c2) =
      some (pm, []) := by
  cases sp <;> cases pm <;> cases c1 <;> cases c2 <;> rfl

theorem matchTail_min (mv : Nat) (hmv : mv < 100) (sp pm c1 c2 : Bool) :
    matchTail (':' :: isoPad2 mv ++
        ((if sp then [' '] else []) ++ meridiemMarker pm c1 c2)) =
      some (⟨isoPad2 mv⟩, pm, []) := by
  have h1 := decChar_isDigit (show mv / 10 < 10 by omega)
  have h2 := decChar_isDigit (show mv % 10 < 10 by omega)
  show matchTail (':' :: decChar (mv / 10) :: decChar (mv % 10) ::
      ((if sp then [' '] else []) ++ meridiemMarker pm c1 c2)) = _
  simp only [matchTail, h1, h2, matchSpacesMeridiem_spmk sp pm c1 c2,
    Bool.and_self, if_true, Option.map_some']
  rfl

theorem spmkTail_head (sp pm c1 c2 : Bool) (t0 : Char) (trest : List Char)
    (he : (if sp then [' '] else []) ++ meridiemMarker pm c1 c2 = t0 :: trest) :
    t0.isDigit = false := by
  cases sp <;> cases pm <;> cases c1 <;> cases c2 <;>
    (dsimp only [meridiemMarker, List.cons_append, List.nil_append] at he
     injection he with h1 h2
     rw [← h1]
     decide)

theorem matchClock_render (h : Nat) (hh1 : 1 ≤ h) (hh : h ≤ 12)
    (t0 : Char) (trest : List Char) (ht0 : t0.isDigit = false)
    (ms : String) (pm : Bool) (rest : List Char)
    (hmt : matchTail (t0 :: trest) = some (ms, pm, rest)) :
    matchClock (natRepr h ++ t0 :: trest) = some (h, ms, pm, rest) := by
  by_cases h9 : h ≤ 9
  · rw [natRepr_single (by omega)]
    simp only [List.cons_append, List.nil_append]
    simp only [matchClock, decChar_isDigit (show h < 10 by omega), ht0,
      Bool.and_false, Bool.false_eq_true, if_false, if_true, hmt,
      Option.map_some', digitVal_decChar (show h < 10 by omega)]
    rfl
  · rw [natRepr_double (by omega) (by omega)]
    simp only [List.cons_append, List.nil_append]
    simp only [matchClock, decChar_isDigit (show h / 10 < 10 by omega),
      decChar_isDigit (show h % 10 < 10 by omega), Bool.and_self, if_true, hmt,
      Option.map_some', digitVal_decChar (show h / 10 < 10 by omega),
      digitVal_decChar (show h % 10 < 10 by omega)]
    have hv : h / 10 * 10 + h % 10 = h := by omega
    rw [hv]
    rfl

theorem convert12go_nil (fuel : Nat) : convert12go fuel [] = [] := by
  cases fuel <;> rfl

theorem convert12to24_full (l : List Char) (h : Nat) (ms : String) (pm : Bool)
    (hne : l ≠ []) (hmc : matchClock l = some (h, ms, pm, [])) :
    convert12to24 ⟨l⟩ = ⟨replacement12 h ms pm⟩ := by
  cases l with
  | nil => exact absurd rfl hne
  | cons c cs =>
    show (⟨convert12go (c :: cs).length (c :: cs)⟩ : String) = _
    rw [show (c :: cs).length = cs.length + 1 from rfl]
    rw [convert12go, hmc]
    dsimp only
    rw [convert12go_nil, List.append_nil]

theorem spec24Hour_lt (h : Nat) (pm : Bool) (hh : h ≤ 12) :
    spec24Hour h pm < 100 := by
  unfold spec24Hour
  split_ifs <;> omega

theorem replacement12_eq (h : Nat) (pm : Bool) (m : Nat) (hh : h ≤ 12)
    (ms : String) (hms : ms.data = isoPad2 m) :
    (⟨replacement12 h ms pm⟩ : String) = clockStr (spec24Hour h pm) m := by
  unfold replacement12 clockStr
  rw [meridiemAdjust_eq_spec, pad2_eq_isoPad2 (spec24Hour_lt h pm hh), hms]
  simp [List.append_assoc]

/-- Claim C7: for every well-formed 12-hour clock string (hour 1-12
written with one or two digits, optional two-digit minutes after a
colon, optional space, `AM`/`PM` marker in any letter case), the
`convert12to24` conversion applied during time normalization yields the
zero-padded 24-hour equivalent prescribed by the spec, including the
`12 AM → 00` and `12 PM → 12` boundary cases. -/
theorem c7_twelve_hour_conversion (h : Nat) (minutes : Option Nat)
    (sp pm c1 c2 : Bool) (hh1 : 1 ≤ h) (hh : h ≤ 12)
    (hmv : ∀ mv, minutes = some mv → mv < 60) :
    convert12to24 (render12 h minutes sp pm c1 c2) =
      clockStr (spec24Hour h pm) (minutes.getD 0) := by
  cases minutes with
  | none =>
    cases hsh : (if sp then [' '] else []) ++ meridiemMarker pm c1 c2 with
    | nil =>
      exfalso
      have hlen := congrArg List.length hsh
      simp [meridiemMarker] at hlen
    | cons t0 trest =>
      have ht0 := spmkTail_head sp pm c1 c2 t0 trest hsh
      have hmt := matchTail_nomin sp pm c1 c2
      rw [hsh] at hmt
      have hmc := matchClock_render h hh1 hh t0 trest ht0 "00" pm [] hmt
      rw [show render12 h none sp pm c1 c2
          = (⟨natRepr h ++ t0 :: trest⟩ : String) from by
        unfold render12
        rw [← hsh]
        simp]
      rw [convert12to24_full _ h "00" pm (by simp) hmc]
      exact replacement12_eq h pm 0 hh "00" rfl
  | some mv =>
    have hmv60 : mv < 100 := by have := hmv mv rfl; omega
    have hmt := matchTail_min mv hmv60 sp pm c1 c2
    have hmc := matchClock_render h hh1 hh ':'
      (isoPad2 mv ++ ((if sp then [' '] else []) ++ meridiemMarker pm c1 c2))
      (by decide) ⟨isoPad2 mv⟩ pm [] hmt
    rw [show render12 h (some mv) sp pm c1 c2
        = (⟨natRepr h ++ ':' :: (isoPad2 mv ++
            ((if sp then [' '] else []) ++ meridiemMarker pm c1 c2))⟩ : String) from by
      unfold render12
      simp [List.append_assoc]]
    rw [convert12to24_full _ h ⟨isoPad2 mv⟩ pm (by simp) hmc]
    exact replacement12_eq h pm mv hh ⟨isoPad2 mv⟩ rfl

theorem c7_witness :
    ((1 ≤ 2 ∧ 2 ≤ 12 ∧ ∀ mv, (some 30 : Option Nat) = some mv → mv < 60) ∧
      convert12to24 (render12 2 (some 30) true true true true) =
        clockStr (spec24Hour 2 true) 30) ∧
    render12 2 (some 30) true true true true = "2:30 PM" ∧
    clockStr (spec24Hour 2 true) 30 = "14:30" ∧
    convert12to24 (render12 12 none true false true true) = clockStr 0 0 ∧
    convert12to24 (render12 12 none true true true true) = clockStr 12 0 := by
  refine ⟨⟨⟨by decide, by decide, fun mv hm => by injection hm with h; omega⟩,
    c7_twelve_hour_conversion 2 (some 30) true true true true (by decide) (by decide)
      (fun mv hm => by injection hm with h; omega)⟩, rfl, rfl, ?_, ?_⟩
  · rw [c7_twelve_hour_conversion 12 none true false true true (by decide) (by decide)
      (fun mv hm => by cases hm)]
    rfl
  · rw [c7_twelve_hour_conversion 12 none true true true true (by decide) (by decide)
      (fun mv hm => by cases hm)]
    rfl

theorem setHours_valid_iff (d : JSDate) (hd : d.valid = true) (h m : Option Int) :
    (setHoursJS d h m).valid = (h.isSome && m.isSome) := by
  cases h <;> cases m <;> simp [setHoursJS, hd]

theorem parseableClock_eq_valid (s : String) (d : JSDate) (hd : d.valid = true) :
    parseableClock s =
      (setHoursJS d (((jsSplit ":" s).get? 0).bind (fun p => toNumber p.data))
        (((jsSplit ":" s).get? 1).bind (fun p => toNumber p.data))).valid := by
  rw [setHours_valid_iff d hd]
  rfl

theorem toISO_ok (d : JSDate) (hv : d.valid = true) :
    toISOStringE d = .ok ⟨isoPad4 d.year ++ ['-'] ++ isoPad2 d.month ++ ['-'] ++
      isoPad2 d.day ++ ['T'] ++ isoPad2 d.hh.toNat ++ [':'] ++ isoPad2 d.mi.toNat ++
      (":00.000Z".data)⟩ := by
  unfold toISOStringE
  rw [hv]
  rfl

theorem toISO_err (d : JSDate) (hv : d.valid = false) :
    toISOStringE d = .error "RangeError: Invalid time value" := by
  unfold toISOStringE
  rw [hv]
  rfl

/-- Claim C3 (amended): for an event whose date parses to a valid
calendar date and whose time field is tame (digit/colon/space/sign
alphabet, digit runs of at most six — the forms the parsers emit, and
the domain on which the integer `Number` model agrees with JS, decimal
and exponent and hex literals being excluded), the mapping to a
calendar payload succeeds iff the FIRST TWO `' - '`-split parts of the
time field are present and parseable clock times; parts beyond the
second are ignored by the destructuring (so "too many parts" does NOT
fail), and an absent or unparseable part surfaces as a thrown
`TypeError`/`RangeError`, not a dedicated `InvalidTimeRange` error. -/
theorem c3_time_range_gate (e : ParsedTimetableEvent)
    (hdate : (jsNewDate e.date).valid = true)
    (_htame : tameTime e.time = true) :
    (∃ ev, convertToCalendarEvent e = .ok ev) ↔ firstTwoParseable e.time = true := by
  unfold convertToCalendarEvent parseTimeRange firstTwoParseable
  dsimp only
  cases h0 : (jsSplit " - " e.time).get? 0 with
  | none =>
    rw [show parseTimeStrJS none (jsNewDate e.date) =
        .error "TypeError: Cannot read properties of undefined" from rfl]
    rw [Except_bind_error, Except_bind_error]
    simp
  | some p0 =>
    rw [show parseTimeStrJS (some p0) (jsNewDate e.date) =
        .ok (setHoursJS (jsNewDate e.date)
          (((jsSplit ":" p0).get? 0).bind (fun p => toNumber p.data))
          (((jsSplit ":" p0).get? 1).bind (fun p => toNumber p.data))) from rfl]
    rw [Except_bind_ok]
    cases h1 : (jsSplit " - " e.time).get? 1 with
    | none =>
      rw [show parseTimeStrJS none (jsNewDate e.date) =
          .error "TypeError: Cannot read properties of undefined" from rfl]
      rw [Except_bind_error, Except_bind_error]
      simp
    | some p1 =>
      rw [show parseTimeStrJS (some p1) (jsNewDate e.date) =
          .ok (setHoursJS (jsNewDate e.date)
            (((jsSplit ":" p1).get? 0).bind (fun p => toNumber p.data))
            (((jsSplit ":" p1).get? 1).bind (fun p => toNumber p.data))) from rfl]
      rw [Except_bind_ok, Except_pure, Except_bind_ok]
      dsimp only
      rw [parseableClock_eq_valid p0 (jsNewDate e.date) hdate,
        parseableClock_eq_valid p1 (jsNewDate e.date) hdate]
      cases hv0 : (setHoursJS (jsNewDate e.date)
          (((jsSplit ":" p0).get? 0).bind (fun p => toNumber p.data))
          (((jsSplit ":" p0).get? 1).bind (fun p => toNumber p.data))).valid with
      | false =>
        rw [toISO_err _ hv0, Except_bind_error]
        simp
      | true =>
        rw [toISO_ok _ hv0, Except_bind_ok]
        cases hv1 : (setHoursJS (jsNewDate e.date)
            (((jsSplit ":" p1).get? 0).bind (fun p => toNumber p.data))
            (((jsSplit ":" p1).get? 1).bind (fun p => toNumber p.data))).valid with
        | false =>
          rw [toISO_err _ hv1, Except_bind_error]
          simp
        | true =>
          rw [toISO_ok _ hv1, Except_bind_ok, Except_pure]
          simp

theorem c3_witness :
    (jsNewDate sampleEvent.date).valid = true ∧
    tameTime sampleEvent.time = true ∧
    firstTwoParseable sampleEvent.time = true ∧
    (∃ ev, convertToCalendarEvent sampleEvent = .ok ev) := by
  refine ⟨rfl, by decide, rfl, (c3_time_range_gate sampleEvent rfl (by decide)).mpr rfl⟩

/-- A time field splitting into THREE parts still maps successfully
(the destructuring ignores the extra part), refuting the claim that
more than two parts fails the mapping. -/
theorem c3_counterexample :
    (jsSplit " - " "09:00 - 10:00 - 11:00").length = 3 ∧
    (∃ ev, convertToCalendarEvent
      { sampleEvent with time := "09:00 - 10:00 - 11:00" } = .ok ev) := by
  exact ⟨rfl, ⟨_, rfl⟩⟩

theorem jsSplit_colon_clock (h m : Nat) (hh : h < 100) (hm : m < 100) :
    jsSplit ":" (clockStr h m) = [⟨isoPad2 h⟩, ⟨isoPad2 m⟩] := by
  rw [show (":" : String) = (⟨[':']⟩ : String) from rfl]
  rw [show clockStr h m = (⟨isoPad2 h ++ (':' :: []) ++ isoPad2 m⟩ : String) from rfl]
  refine jsSplit_pair ':' [] (isoPad2 h) (isoPad2 m) ?_ ?_
  · intro c hc
    simp only [isoPad2, List.mem_cons, List.not_mem_nil, or_false] at hc
    rcases hc with rfl | rfl
    · exact (decChar_ne (by omega : h / 10 < 10)).2.2.1
    · exact (decChar_ne (by omega : h % 10 < 10)).2.2.1
  · intro c hc
    simp only [isoPad2, List.mem_cons, List.not_mem_nil, or_false] at hc
    rcases hc with rfl | rfl
    · exact (decChar_ne (by omega : m / 10 < 10)).2.2.1
    · exact (decChar_ne (by omega : m % 10 < 10)).2.2.1

theorem jsSplit_range_pair (h1 m1 h2 m2 : Nat) (hh1 : h1 < 100) (hm1 : m1 < 100)
    (hh2 : h2 < 100) (hm2 : m2 < 100) :
    jsSplit " - " (clockStr h1 m1 ++ " - " ++ clockStr h2 m2) =
      [clockStr h1 m1, clockStr h2 m2] := by
  rw [show (" - " : String) = (⟨' ' :: ['-', ' ']⟩ : String) from rfl]
  rw [show clockStr h1 m1 ++ " - " ++ clockStr h2 m2
      = (⟨(clockStr h1 m1).data ++ (' ' :: ['-', ' ']) ++ (clockStr h2 m2).data⟩ :
          String) from rfl]
  refine jsSplit_pair ' ' ['-', ' '] _ _ ?_ ?_
  · intro c hc
    rcases clockStr_char_facts h1 m1 hh1 hm1 c hc with ⟨_, _, _, h4, _⟩ | rfl
    · exact h4
    · decide
  · intro c hc
    rcases clockStr_char_facts h2 m2 hh2 hm2 c hc with ⟨_, _, _, h4, _⟩ | rfl
    · exact h4
    · decide

theorem parseTimeStr_clock (h m : Nat) (hh : h < 100) (hm : m < 100)
    (base : JSDate) :
    parseTimeStrJS (some (clockStr h m)) base =
      .ok (setHoursJS base (some ((h : Nat) : Int)) (some ((m : Nat) : Int))) := by
  unfold parseTimeStrJS
  dsimp only
  rw [jsSplit_colon_clock h m hh hm]
  dsimp only [List.get?, Option.bind]
  rw [toNumber_isoPad2 hh, toNumber_isoPad2 hm]

theorem digitsVal_four (a b c d : Char) :
    digitsVal [a, b, c, d] =
      1000 * digitVal a + 100 * digitVal b + 10 * digitVal c + digitVal d := by
  unfold digitsVal
  simp [List.foldl]
  ring

theorem daysInMonth_le (y mo : Nat) : daysInMonth y mo ≤ 31 := by
  unfold daysInMonth
  split_ifs <;> omega

theorem jsNewDate_dateStr (y mo d : Nat) (hy : y < 10000)
    (hmo1 : 1 ≤ mo) (hmo : mo ≤ 12) (hd1 : 1 ≤ d) (hd : d ≤ daysInMonth y mo) :
    jsNewDate (dateStr y mo d) = ⟨true, y, mo, d, 0, 0⟩ := by
  have hd31 : d ≤ 31 := le_trans hd (daysInMonth_le y mo)
  have hy1 : y / 1000 < 10 := by omega
  have hy2 : y / 100 % 10 < 10 := by omega
  have hy3 : y / 10 % 10 < 10 := by omega
  have hy4 : y % 10 < 10 := by omega
  have hma : mo / 10 < 10 := by omega
  have hmb : mo % 10 < 10 := by omega
  have hda : d / 10 < 10 := by omega
  have hdb : d % 10 < 10 := by omega
  show jsNewDate ⟨[decChar (y / 1000), decChar (y / 100 % 10), decChar (y / 10 % 10),
    decChar (y % 10), '-', decChar (mo / 10), decChar (mo % 10), '-',
    decChar (d / 10), decChar (d % 10)]⟩ = _
  unfold jsNewDate
  dsimp only
  split
  · next y1 y2 y3 y4 m1 m2 d1 d2 heq =>
      simp only [List.cons.injEq, and_true] at heq
      obtain ⟨e1, e2, e3, e4, -, e5, e6, -, e7, e8⟩ := heq
      subst e1
      subst e2
      subst e3
      subst e4
      subst e5
      subst e6
      subst e7
      subst e8
      rw [decChar_isDigit hy1, decChar_isDigit hy2, decChar_isDigit hy3,
        decChar_isDigit hy4, decChar_isDigit hma, decChar_isDigit hmb,
        decChar_isDigit hda, decChar_isDigit hdb]
      rw [digitsVal_four, digitsVal_two, digitsVal_two,
        digitVal_decChar hy1, digitVal_decChar hy2, digitVal_decChar hy3,
        digitVal_decChar hy4, digitVal_decChar hma, digitVal_decChar hmb,
        digitVal_decChar hda, digitVal_decChar hdb]
      have hyv : 1000 * (y / 1000) + 100 * (y / 100 % 10) + 10 * (y / 10 % 10)
          + y % 10 = y := by omega
      have hmv : 10 * (mo / 10) + mo % 10 = mo := by omega
      have hdv : 10 * (d / 10) + d % 10 = d := by omega
      rw [hyv, hmv, hdv]
      rw [if_pos]
      · simp [hmo1, hmo, hd1, hd]
      · rfl
  · next x h =>
      exact (h _ _ _ _ _ _ _ _ rfl).elim

theorem iso_recon (y mo d h m : Nat) :
    dateOfISO ⟨isoPad4 y ++ ['-'] ++ isoPad2 mo ++ ['-'] ++ isoPad2 d ++ ['T'] ++
      isoPad2 h ++ [':'] ++ isoPad2 m ++ (":00.000Z".data)⟩ = dateStr y mo d ∧
    clockOfISO ⟨isoPad4 y ++ ['-'] ++ isoPad2 mo ++ ['-'] ++ isoPad2 d ++ ['T'] ++
      isoPad2 h ++ [':'] ++ isoPad2 m ++ (":00.000Z".data)⟩ = clockStr h m := by
  have hgrp : isoPad4 y ++ ['-'] ++ isoPad2 mo ++ ['-'] ++ isoPad2 d ++ ['T'] ++
      isoPad2 h ++ [':'] ++ isoPad2 m ++ (":00.000Z".data)
      = ((isoPad4 y ++ ['-'] ++ isoPad2 mo ++ ['-'] ++ isoPad2 d) ++ ['T']) ++
        ((isoPad2 h ++ ':' :: isoPad2 m) ++ (":00.000Z".data)) := by
    simp [List.append_assoc]
  have hP : (isoPad4 y ++ ['-'] ++ isoPad2 mo ++ ['-'] ++ isoPad2 d).length = 10 := by
    simp [isoPad4, isoPad2]
  have hP11 : ((isoPad4 y ++ ['-'] ++ isoPad2 mo ++ ['-'] ++ isoPad2 d) ++
      ['T']).length = 11 := by
    simp [isoPad4, isoPad2]
  have hQ : (isoPad2 h ++ ':' :: isoPad2 m).length = 5 := by
    simp [isoPad2]
  constructor
  · show (⟨(isoPad4 y ++ ['-'] ++ isoPad2 mo ++ ['-'] ++ isoPad2 d ++ ['T'] ++
      isoPad2 h ++ [':'] ++ isoPad2 m ++ (":00.000Z".data)).take 10⟩ : String)
      = dateStr y mo d
    rw [hgrp, List.append_assoc, List.take_left' hP]
    rfl
  · show (⟨((isoPad4 y ++ ['-'] ++ isoPad2 mo ++ ['-'] ++ isoPad2 d ++ ['T'] ++
      isoPad2 h ++ [':'] ++ isoPad2 m ++ (":00.000Z".data)).drop 11).take 5⟩ : String)
      = clockStr h m
    rw [hgrp, List.drop_left' hP11, List.take_left' hQ]
    rfl

/-- Claim C8: a normalized event (valid `YYYY-MM-DD` date, well-formed
`HH:MM - HH:MM` time with in-range clock fields) maps successfully to a
calendar payload, and reconstructing the calendar date (first ten
characters) and the start/end wall-clock times (five characters after
the `T`) from the payload's `startTime`/`endTime` timestamps reproduces
the event's original `date` and `time` exactly. -/
theorem c8_round_trip (e : ParsedTimetableEvent) (y mo d h1 m1 h2 m2 : Nat)
    (hy : y < 10000) (hmo1 : 1 ≤ mo) (hmo : mo ≤ 12) (hd1 : 1 ≤ d)
    (hd : d ≤ daysInMonth y mo) (hh1 : h1 < 24) (hm1 : m1 < 60)
    (hh2 : h2 < 24) (hm2 : m2 < 60)
    (hdate : e.date = dateStr y mo d)
    (htime : e.time = clockStr h1 m1 ++ " - " ++ clockStr h2 m2) :
    ∃ ev, convertToCalendarEvent e = .ok ev ∧
      dateOfISO ev.startTime = e.date ∧
      clockOfISO ev.startTime ++ " - " ++ clockOfISO ev.endTime = e.time := by
  unfold convertToCalendarEvent parseTimeRange
  dsimp only
  rw [hdate, htime]
  rw [jsSplit_range_pair h1 m1 h2 m2 (by omega) (by omega) (by omega) (by omega)]
  dsimp only [List.get?]
  rw [jsNewDate_dateStr y mo d hy hmo1 hmo hd1 hd]
  rw [parseTimeStr_clock h1 m1 (by omega) (by omega), Except_bind_ok]
  rw [parseTimeStr_clock h2 m2 (by omega) (by omega), Except_bind_ok, Except_pure,
    Except_bind_ok]
  dsimp only
  rw [show setHoursJS ⟨true, y, mo, d, 0, 0⟩ (some ((h1 : Nat) : Int))
      (some ((m1 : Nat) : Int)) = ⟨true, y, mo, d, (h1 : Int), (m1 : Int)⟩ from rfl]
  rw [show setHoursJS ⟨true, y, mo, d, 0, 0⟩ (some ((h2 : Nat) : Int))
      (some ((m2 : Nat) : Int)) = ⟨true, y, mo, d, (h2 : Int), (m2 : Int)⟩ from rfl]
  rw [toISO_ok _ rfl, Except_bind_ok]
  rw [toISO_ok _ rfl, Except_bind_ok, Except_pure]
  refine ⟨_, rfl, ?_, ?_⟩
  · dsimp only
    simp only [Int.toNat_natCast]
    exact (iso_recon y mo d h1 m1).1
  · dsimp only
    simp only [Int.toNat_natCast]
    rw [(iso_recon y mo d h1 m1).2, (iso_recon y mo d h2 m2).2]

theorem c8_witness :
    sampleEvent.date = dateStr 2025 1 6 ∧
    sampleEvent.time = clockStr 9 0 ++ " - " ++ clockStr 10 30 ∧
    (∃ ev, convertToCalendarEvent sampleEvent = .ok ev ∧
      dateOfISO ev.startTime = sampleEvent.date ∧
      clockOfISO ev.startTime ++ " - " ++ clockOfISO ev.endTime
        = sampleEvent.time) := by
  refine ⟨rfl, rfl, c8_round_trip sampleEvent 2025 1 6 9 0 10 30 (by decide)
    (by decide) (by decide) (by decide) (by decide) (by decide) (by decide)
    (by decide) (by decide) rfl rfl⟩
